import Mathlib

/-!
Verification of the credentiable_docs core against its specification.

The development shallowly embeds the Python sources:
  - src/spatial_utils.py        (is_contained_within)
  - src/doc_structure.py        (DocumentStructurer._is_contained_within,
                                 DocumentStructurer._build_hierarchy)
  - src/table_parser.py         (TableParser and merge_table_results_with_ocr)

Conventions of the embedding:
  - Python floats are modelled as rationals; every comparison in the
    sources is order-theoretic, so exact arithmetic is faithful wherever
    no float rounding is exercised by a claim.
  - A Python function that can raise (ZeroDivisionError, ValueError) is
    modelled as an Option-valued function; none marks the raising path.
  - Python dicts keyed by strings are modelled as association lists with
    insertion order preserved; overwriting an existing key keeps the
    original position, as CPython dicts do.
-/

namespace CredDocs

/-- Bounding-box record used by both containment predicates: the class
string together with a center-based box, exactly the fields the Python
code reads from a detection dict. -/
structure Elem where
  cls : String
  x : ℚ
  y : ℚ
  width : ℚ
  height : ℚ
deriving DecidableEq, Repr, Inhabited

/-- Left edge of a center-based box, as computed in the sources. -/
def Elem.leftEdge (e : Elem) : ℚ := e.x - e.width / 2

/-- Right edge of a center-based box. -/
def Elem.rightEdge (e : Elem) : ℚ := e.x + e.width / 2

/-- Top edge of a center-based box. -/
def Elem.topEdge (e : Elem) : ℚ := e.y - e.height / 2

/-- Bottom edge of a center-based box. -/
def Elem.bottomEdge (e : Elem) : ℚ := e.y + e.height / 2

/-- Intersection width of two boxes, before the non-positivity guard. -/
def overlapW (e c : Elem) : ℚ :=
  min e.rightEdge c.rightEdge - max e.leftEdge c.leftEdge

/-- Intersection height of two boxes, before the non-positivity guard. -/
def overlapH (e c : Elem) : ℚ :=
  min e.bottomEdge c.bottomEdge - max e.topEdge c.topEdge

/-- Special case for tables, identical in spatial_utils.is_contained_within
and in DocumentStructurer._is_contained_within: requires positive overlap,
vertical overlap ratio at least 0.3, horizontal overlap ratio at least 0.2,
then a two-disjunct 100px vertical proximity test.  The divisions by the
element height and by the minimum width are guarded by none (they cannot in
fact be reached with a zero denominator, see the safety theorem). -/
def tableBranch (element container : Elem) : Option Bool :=
  if overlapW element container ≤ 0 ∨ overlapH element container ≤ 0 then some false
  else if element.height = 0 then none
  else if overlapH element container / element.height < 3/10 then some false
  else if min element.width container.width = 0 then none
  else if overlapW element container / min element.width container.width < 1/5 then
    some false
  else
    some (decide (
      (element.topEdge ≥ container.topEdge - 100 ∧
        element.bottomEdge ≤ container.bottomEdge + 100) ∨
      (element.topEdge ≤ container.bottomEdge + 100 ∧
        element.bottomEdge ≥ container.topEdge - 100)))

/-- Shared body of the checkbox-style special cases of both containment
predicates: the five cases differ only in the overlap threshold and the
vertical proximity constant, their code blocks are otherwise identical.
Python evaluates the conjunction lazily, so the division by the element
area happens only when the proximity test already passed. -/
def absCloseOverlapBranch (element container : Elem)
    (thr vertical_proximity : ℚ) : Option Bool :=
  if overlapW element container ≤ 0 ∨ overlapH element container ≤ 0 then some false
  else if |element.topEdge - container.bottomEdge| < vertical_proximity ∨
      |element.bottomEdge - container.topEdge| < vertical_proximity ∨
      (element.topEdge ≥ container.topEdge ∧
        element.bottomEdge ≤ container.bottomEdge) then
    if element.width * element.height = 0 then none
    else some (decide (overlapW element container * overlapH element container /
      (element.width * element.height) > thr))
  else some false

/-- Fallback overlap-ratio rule shared by both predicates (and reused in
doc_structure for fields inside tables, with threshold 0.5): positive
overlap and overlap area over element area above the threshold. -/
def defaultBranch (element container : Elem) (threshold : ℚ) : Option Bool :=
  if overlapW element container ≤ 0 ∨ overlapH element container ≤ 0 then some false
  else if element.width * element.height = 0 then none
  else some (decide (overlapW element container * overlapH element container /
    (element.width * element.height) > threshold))

/-- Embedding of is_contained_within from src/spatial_utils.py: the ordered
chain of class-pair special cases, first match wins.  Note that the
checkbox_option/checkbox_context case (threshold 0.1) is preceded by the
checkbox-or-checkbox_option/checkbox_context case (threshold 0.05), which
already matches every checkbox_option. -/
def spatial_is_contained_within (element container : Elem)
    (threshold : ℚ := 4/5) : Option Bool :=
  if element.cls = "table" then
    tableBranch element container
  else if (element.cls = "field" ∨ element.cls = "checkbox" ∨
      element.cls = "checkbox_option" ∨ element.cls = "checkbox_context") ∧
      container.cls = "table" then
    some (decide (
      (container.leftEdge ≤ element.x ∧ element.x ≤ container.rightEdge) ∧
      (container.topEdge ≤ element.y ∧ element.y ≤ container.bottomEdge)))
  else if (element.cls = "checkbox" ∨ element.cls = "checkbox_option") ∧
      container.cls = "checkbox_context" then
    absCloseOverlapBranch element container (1/20) 150
  else if element.cls = "checkbox_option" ∧ container.cls = "checkbox_context" then
    absCloseOverlapBranch element container (1/10) 150
  else if element.cls = "checkbox" ∧ container.cls = "checkbox_option" then
    absCloseOverlapBranch element container (1/50) 100
  else if element.cls = "checkbox_context" ∧ container.cls = "section" then
    absCloseOverlapBranch element container (1/10) 300
  else
    defaultBranch element container threshold

/-- Embedding of DocumentStructurer._is_contained_within from
src/doc_structure.py: same rule chain as the spatial_utils variant but with
different constants, and an overlap-ratio rule (threshold 0.5) instead of
the center-point rule for elements inside tables.  The
checkbox_option/checkbox_context case (threshold 0.2, proximity 120) is
preceded by the checkbox-or-checkbox_option/checkbox_context case
(threshold 0.1, proximity 100), which already matches every
checkbox_option. -/
def doc_is_contained_within (element container : Elem)
    (threshold : ℚ := 4/5) : Option Bool :=
  if element.cls = "table" then
    tableBranch element container
  else if (element.cls = "field" ∨ element.cls = "checkbox" ∨
      element.cls = "checkbox_option" ∨ element.cls = "checkbox_context") ∧
      container.cls = "table" then
    defaultBranch element container (1/2)
  else if (element.cls = "checkbox" ∨ element.cls = "checkbox_option") ∧
      container.cls = "checkbox_context" then
    absCloseOverlapBranch element container (1/10) 100
  else if element.cls = "checkbox_option" ∧ container.cls = "checkbox_context" then
    absCloseOverlapBranch element container (1/5) 120
  else if element.cls = "checkbox" ∧ container.cls = "checkbox_option" then
    absCloseOverlapBranch element container (1/20) 80
  else if element.cls = "checkbox_context" ∧ container.cls = "section" then
    absCloseOverlapBranch element container (3/10) 150
  else
    defaultBranch element container threshold

/-- Containment of a table in a container as the spec sentence states it
(refinement target, written from the words of the spec, for comparison with
the code): vertical overlap ratio at least 0.3, horizontal overlap ratio at
least 0.2, and the table's vertical span lies within the container's
vertical span extended by a 100px proximity margin. -/
def specTableContained (e c : Elem) : Prop :=
  3/10 ≤ overlapH e c / e.height ∧
  1/5 ≤ overlapW e c / min e.width c.width ∧
  (c.topEdge - 100 ≤ e.topEdge ∧ e.bottomEdge ≤ c.bottomEdge + 100)

instance (e c : Elem) : Decidable (specTableContained e c) := by
  unfold specTableContained; infer_instance

/-- Containment of a checkbox_option in a checkbox_context as the spec
sentence states it (refinement target, written from the words of the spec,
for comparison with the code): overlap ratio strictly above 0.2 and
vertically close within 120px, where vertically close is the near-edge /
inside test of the geometry model. -/
def specOptionContained (e c : Elem) : Prop :=
  overlapW e c * overlapH e c / (e.width * e.height) > 1/5 ∧
  (|e.topEdge - c.bottomEdge| < 120 ∨ |e.bottomEdge - c.topEdge| < 120 ∨
    (e.topEdge ≥ c.topEdge ∧ e.bottomEdge ≤ c.bottomEdge))

instance (e c : Elem) : Decidable (specOptionContained e c) := by
  unfold specOptionContained; infer_instance

/-! Embedding of DocumentStructurer._build_hierarchy from
src/doc_structure.py.  A detection carries every field the builder reads;
the Python code reads optional keys with dict.get and a default, which the
total record makes always-present.  Python dicts keyed by detection id are
association lists whose insert overwrites in place; the set of ids already
assigned to tables is a list used only through membership. -/

/-- Input detection record, with the fields _build_hierarchy reads. -/
structure Detection where
  detection_id : String
  cls : String
  x : ℚ
  y : ℚ
  width : ℚ
  height : ℚ
  confidence : ℚ
  class_id : ℤ
  parent_id : String
  filename : String
  text : String
deriving DecidableEq, Repr, Inhabited

/-- View of a detection as the box record of the containment predicate. -/
def Detection.toElem (d : Detection) : Elem :=
  ⟨d.cls, d.x, d.y, d.width, d.height⟩

/-- Containment test the builder uses: _is_contained_within with its
default threshold 0.8.  The Option is collapsed with getD false; by the
no-division-by-zero theorem the none case never occurs. -/
def containedIn (element container : Detection) : Bool :=
  (doc_is_contained_within element.toElem container.toElem (4/5)).getD false

/-- Stable insertion of a detection into a list sorted by ascending y;
the element is placed before any element of equal y, matching the
stability of the Python sorted builtin for an element that came first. -/
def insertByY (d : Detection) : List Detection → List Detection
  | [] => [d]
  | e :: rest => if d.y ≤ e.y then d :: e :: rest else e :: insertByY d rest

/-- Stable sort by ascending y coordinate, as sorted(key=lambda x: x[y]). -/
def sortByY : List Detection → List Detection
  | [] => []
  | d :: rest => insertByY d (sortByY rest)

/-- Lookup in the elements map built by a dict comprehension keyed on
detection_id: a later detection with the same id overwrites an earlier
one, so the last match wins. -/
def elementsMapLookup (preds : List Detection) (id : String) : Option Detection :=
  (preds.filter (fun d => d.detection_id == id)).getLast?

/-- Total variant of the elements-map lookup for an id drawn from the
list itself; the fallback is never used in that case. -/
def lookupElem (preds : List Detection) (d : Detection) : Detection :=
  (elementsMapLookup preds d.detection_id).getD d

/-- Insert-or-overwrite on an association list, with CPython dict
semantics: overwriting an existing key keeps its original position,
a fresh key is appended. -/
def dictInsert {κ α : Type} [BEq κ] (l : List (κ × α)) (k : κ) (v : α) :
    List (κ × α) :=
  if l.any (fun p => p.1 == k) then
    l.map (fun p => if p.1 == k then (k, v) else p)
  else l ++ [(k, v)]

/-- Checkbox leaf of the output structure. -/
structure CheckboxOut where
  text : String
  confidence : ℚ
  detection_id : String
deriving DecidableEq, Repr

/-- Checkbox option node of the output structure. -/
structure OptionOut where
  text : String
  confidence : ℚ
  detection_id : String
  checkboxes : List CheckboxOut
deriving DecidableEq, Repr

/-- Checkbox context node of the output structure. -/
structure ContextOut where
  text : String
  confidence : ℚ
  detection_id : String
  options : List OptionOut
deriving DecidableEq, Repr

/-- Field entry of a table in the output structure. -/
structure TableFieldOut where
  text : String
  confidence : ℚ
  detection_id : String
deriving DecidableEq, Repr

/-- Table node of the output structure. -/
structure TableOut where
  text : String
  confidence : ℚ
  detection_id : String
  fields : List TableFieldOut
  checkbox_contexts : List ContextOut
deriving DecidableEq, Repr

/-- Field entry of a section in the output structure, with the full
metadata the builder copies. -/
structure SectionFieldOut where
  width : ℚ
  height : ℚ
  x : ℚ
  y : ℚ
  confidence : ℚ
  class_id : ℤ
  cls : String
  detection_id : String
  parent_id : String
  filename : String
  text : String
deriving DecidableEq, Repr

/-- Section node of the output structure: the value stored under a
section id in the returned dict. -/
structure SectionOut where
  width : ℚ
  height : ℚ
  x : ℚ
  y : ℚ
  confidence : ℚ
  class_id : ℤ
  cls : String
  detection_id : String
  parent_id : String
  filename : String
  text : String
  fields : List SectionFieldOut
  tables : List (String × TableOut)
  checkbox_contexts : List ContextOut
deriving DecidableEq, Repr

/-- Checkboxes found inside a checkbox option: the scan over all sorted
elements filtering on class checkbox and containment. -/
def optionCheckboxes (sorted_elements : List Detection)
    (option_elem : Detection) : List CheckboxOut :=
  (sorted_elements.filter
      (fun cb => cb.cls == "checkbox" && containedIn cb option_elem)).map
    (fun cb => ⟨cb.text, cb.confidence, cb.detection_id⟩)

/-- Checkbox options found inside a checkbox context, each with its
checkboxes. -/
def contextOptions (sorted_elements : List Detection)
    (context : Detection) : List OptionOut :=
  (sorted_elements.filter
      (fun o => o.cls == "checkbox_option" && containedIn o context)).map
    (fun o => ⟨o.text, o.confidence, o.detection_id,
      optionCheckboxes sorted_elements o⟩)

/-- Output node for one checkbox context. -/
def mkContextOut (sorted_elements : List Detection)
    (context : Detection) : ContextOut :=
  ⟨context.text, context.confidence, context.detection_id,
    contextOptions sorted_elements context⟩

/-- Fields assigned to a table in the first pass. -/
def tableFieldsOf (sorted_elements : List Detection) (table_id : String)
    (table_elem : Detection) : List Detection :=
  sorted_elements.filter (fun o =>
    o.detection_id != table_id && containedIn o table_elem && o.cls == "field")

/-- Checkbox contexts assigned to a table in the first pass. -/
def tableContextsOf (sorted_elements : List Detection) (table_id : String)
    (table_elem : Detection) : List Detection :=
  sorted_elements.filter (fun o =>
    o.detection_id != table_id && containedIn o table_elem &&
      o.cls == "checkbox_context")

/-- One step of the first pass: a table element inserts its entry into
the tables dict and extends the assigned-to-tables set. -/
def tablesStep (sorted_elements preds : List Detection)
    (acc : List (String × TableOut) × List String) (elem : Detection) :
    List (String × TableOut) × List String :=
  if elem.cls == "table" then
    (dictInsert acc.1 elem.detection_id
      ⟨(lookupElem preds elem).text, (lookupElem preds elem).confidence,
        elem.detection_id,
        (tableFieldsOf sorted_elements elem.detection_id
            (lookupElem preds elem)).map
          (fun f => ⟨f.text, f.confidence, f.detection_id⟩),
        (tableContextsOf sorted_elements elem.detection_id
            (lookupElem preds elem)).map
          (mkContextOut sorted_elements)⟩,
      acc.2 ++
        (tableFieldsOf sorted_elements elem.detection_id
            (lookupElem preds elem)).map Detection.detection_id ++
        (tableContextsOf sorted_elements elem.detection_id
            (lookupElem preds elem)).map Detection.detection_id)
  else acc

/-- First pass of _build_hierarchy over a cursor of remaining elements. -/
def tablesPassAux (sorted_elements preds : List Detection) :
    List Detection → (List (String × TableOut) × List String) →
      List (String × TableOut) × List String
  | [], acc => acc
  | elem :: rest, acc =>
      tablesPassAux sorted_elements preds rest
        (tablesStep sorted_elements preds acc elem)

/-- First pass of _build_hierarchy: the tables dict and the set of
detection ids assigned to tables. -/
def tablesPass (sorted_elements preds : List Detection) :
    List (String × TableOut) × List String :=
  tablesPassAux sorted_elements preds sorted_elements ([], [])

/-- Fields assigned to a section in the second pass: contained, of class
field, and not already assigned to a table. -/
def sectionFieldsOf (sorted_elements : List Detection) (section_id : String)
    (section_elem : Detection) (assigned : List String) : List Detection :=
  sorted_elements.filter (fun o =>
    o.detection_id != section_id && containedIn o section_elem &&
      o.cls == "field" && !(assigned.contains o.detection_id))

/-- Checkbox contexts assigned to a section in the second pass. -/
def sectionContextsOf (sorted_elements : List Detection) (section_id : String)
    (section_elem : Detection) (assigned : List String) : List Detection :=
  sorted_elements.filter (fun o =>
    o.detection_id != section_id && containedIn o section_elem &&
      o.cls == "checkbox_context" && !(assigned.contains o.detection_id))

/-- Section field entry with the metadata the builder copies from the
detection. -/
def mkSectionFieldOut (f : Detection) : SectionFieldOut :=
  ⟨f.width, f.height, f.x, f.y, f.confidence, f.class_id, f.cls,
    f.detection_id, f.parent_id, f.filename, f.text⟩

/-- One step of the second pass: a section element inserts its entry.
The tables of the section are the entries of the tables dict whose
detection (looked up in the elements map, which never fails for a key of
the dict) is contained in the section. -/
def sectionsStep (sorted_elements preds : List Detection)
    (tables : List (String × TableOut)) (assigned : List String)
    (secs : List (String × SectionOut)) (elem : Detection) :
    List (String × SectionOut) :=
  if elem.cls == "section" then
    dictInsert secs elem.detection_id
      ⟨(lookupElem preds elem).width, (lookupElem preds elem).height,
        (lookupElem preds elem).x, (lookupElem preds elem).y,
        (lookupElem preds elem).confidence, (lookupElem preds elem).class_id,
        (lookupElem preds elem).cls, elem.detection_id,
        (lookupElem preds elem).parent_id, (lookupElem preds elem).filename,
        (lookupElem preds elem).text,
        (sectionFieldsOf sorted_elements elem.detection_id
            (lookupElem preds elem) assigned).map mkSectionFieldOut,
        tables.filter (fun p =>
          ((elementsMapLookup preds p.1).map
            (fun t => containedIn t (lookupElem preds elem))).getD false),
        (sectionContextsOf sorted_elements elem.detection_id
            (lookupElem preds elem) assigned).map
          (mkContextOut sorted_elements)⟩
  else secs

/-- Second pass of _build_hierarchy over a cursor of remaining elements. -/
def sectionsPassAux (sorted_elements preds : List Detection)
    (tables : List (String × TableOut)) (assigned : List String) :
    List Detection → List (String × SectionOut) → List (String × SectionOut)
  | [], secs => secs
  | elem :: rest, secs =>
      sectionsPassAux sorted_elements preds tables assigned rest
        (sectionsStep sorted_elements preds tables assigned secs elem)

/-- Embedding of DocumentStructurer._build_hierarchy: sort by y, build the
tables dict and the assigned set, then build and return the sections
dict. -/
def build_hierarchy (predictions : List Detection) :
    List (String × SectionOut) :=
  sectionsPassAux (sortByY predictions) predictions
    (tablesPass (sortByY predictions) predictions).1
    (tablesPass (sortByY predictions) predictions).2
    (sortByY predictions) []

/-- Detection ids appearing in a checkbox context node of the output. -/
def contextOutIds (c : ContextOut) : List String :=
  c.detection_id ::
    c.options.flatMap (fun o => o.detection_id :: o.checkboxes.map CheckboxOut.detection_id)

/-- Detection ids appearing in a table node of the output. -/
def tableOutIds (t : TableOut) : List String :=
  t.detection_id ::
    (t.fields.map TableFieldOut.detection_id ++ t.checkbox_contexts.flatMap contextOutIds)

/-- Detection ids appearing in a section node of the output. -/
def sectionOutIds (s : SectionOut) : List String :=
  s.detection_id ::
    (s.fields.map SectionFieldOut.detection_id ++
      s.tables.flatMap (fun p => tableOutIds p.2) ++
      s.checkbox_contexts.flatMap contextOutIds)

/-- All detection ids appearing anywhere in the built hierarchy. -/
def hierarchyIds (h : List (String × SectionOut)) : List String :=
  h.flatMap (fun p => sectionOutIds p.2)

/-- Soundness predicate for the tables dict: every id inside it is the
id of some sorted element. -/
def tablesOK (sorted : List Detection) (ts : List (String × TableOut)) : Prop :=
  ∀ p ∈ ts, ∀ id ∈ tableOutIds p.2, id ∈ sorted.map Detection.detection_id

/-- Soundness predicate for the sections dict. -/
def sectionsOK (sorted : List Detection)
    (ss : List (String × SectionOut)) : Prop :=
  ∀ p ∈ ss, ∀ id ∈ sectionOutIds p.2, id ∈ sorted.map Detection.detection_id

/-! Embedding of TableParser from src/table_parser.py.  A field's box is
stored in the JSON as a space-separated string of numbers; the embedding
keeps the parsed token list, so the len(box) >= 4 checks and the float
conversions of tokens 0 and 1 become list operations (a box token that is
not numeric would raise in Python; no claim exercises that path).  The
title-text computation at the top of both parse methods is dead code - its
value is never read afterwards - and is omitted.  Context assignment
mutates field dicts in place; the embedding tracks fields by their index
in the fields list, which mirrors Python object identity, and rebuilds the
list at the end. -/

/-- Field record of an extracted table. -/
structure TField where
  id : String
  type : String
  text : String
  box : List ℚ
  confidence : ℚ
  context : Option String
deriving DecidableEq, Repr, Inhabited

/-- Extracted-table record: the value stored under a table id. -/
structure TTable where
  box : List ℚ
  confidence : ℚ
  parent_id : String
  fields : List TField
deriving DecidableEq, Repr, Inhabited

/-- Field lookup by index, standing for the Python dict object shared
between the fields list and the row groups. -/
def fieldAt (fields : List TField) (i : Nat) : TField :=
  fields.getD i default

/-- Truthiness of an optional string, as Python tests it: None and the
empty string are falsy. -/
def pyTruthy : Option String → Bool
  | none => false
  | some s => s != ""

/-- Embedding of TableParser._is_double_axis_table: more than one distinct
non-empty text among type-field entries with a parseable box on the left
side (x below 200). -/
def is_double_axis_table (fields : List TField) : Bool :=
  (((fields.filter (fun f => f.type == "field" && f.text != "" &&
      decide (4 ≤ f.box.length) && decide (f.box.getD 0 0 < 200))).map
    TField.text).dedup).length > 1

/-- Row grouping step of the single-axis parser: append the field index to
the first existing row whose key is within 5 of y (dict iteration order =
insertion order), else open a new row keyed by y. -/
def addToRows (y : ℚ) (i : Nat) : List (ℚ × List Nat) → List (ℚ × List Nat)
  | [] => [(y, [i])]
  | (ry, is) :: rest =>
      if |y - ry| < 5 then (ry, is ++ [i]) :: rest
      else (ry, is) :: addToRows y i rest

/-- Row groups of the single-axis parser: type-field entries with a
parseable box, grouped by y with tolerance 5. -/
def singleRows (fields : List TField) : List (ℚ × List Nat) :=
  (fields.enum.filter (fun p => p.2.type == "field" &&
      decide (4 ≤ p.2.box.length))).foldl
    (fun rows p => addToRows (p.2.box.getD 1 0) p.1 rows) []

/-- Sorted insertion of a row by ascending key; the keys of a row map are
pairwise distinct, so ties cannot occur. -/
def insertRow (r : ℚ × List Nat) : List (ℚ × List Nat) → List (ℚ × List Nat)
  | [] => [r]
  | s :: rest => if r.1 ≤ s.1 then r :: s :: rest else s :: insertRow r rest

/-- Rows sorted by ascending y key, as sorted(rows.items()). -/
def sortRows : List (ℚ × List Nat) → List (ℚ × List Nat)
  | [] => []
  | r :: rest => insertRow r (sortRows rest)

/-- Does a row group contain a title-class entry?  Row groups are built
from type-field entries only, so this is always false; the check is kept
because the source performs it. -/
def rowHasTitle (fields : List TField) (is : List Nat) : Bool :=
  is.any (fun i => (fieldAt fields i).type == "title")

/-- Number of entries with non-empty text in a row group. -/
def rowTextCount (fields : List TField) (is : List Nat) : Nat :=
  (is.filter (fun i => (fieldAt fields i).text != "")).length

/-- Header-row search of the single-axis parser: first a row with more
than one text entry (skipping rows containing a title), then any row with
at least one text entry. -/
def findHeaderRow (fields : List TField) (rows : List (ℚ × List Nat)) :
    Option (ℚ × List Nat) :=
  match rows.find? (fun r => !(rowHasTitle fields r.2) &&
      rowTextCount fields r.2 > 1) with
  | some r => some r
  | none => rows.find? (fun r => !(rowHasTitle fields r.2) &&
      rowTextCount fields r.2 > 0)

/-- Column-header map of a header row: x coordinate to text, for entries
with non-empty text and a parseable box; a repeated x overwrites. -/
def columnHeaders (fields : List TField) (is : List Nat) : List (ℚ × String) :=
  is.foldl (fun acc i =>
    if (fieldAt fields i).text != "" && decide (4 ≤ (fieldAt fields i).box.length) then
      dictInsert acc ((fieldAt fields i).box.getD 0 0) (fieldAt fields i).text
    else acc) []

/-- Row identifier search: the text of the leftmost entry with non-empty
text, a parseable box and x below 200 (running minimum with strict
improvement, starting from infinity). -/
def rowIdentifier (fields : List TField) (is : List Nat) : Option String :=
  (is.foldl (fun (acc : Option ℚ × Option String) i =>
    if (fieldAt fields i).text != "" && decide (4 ≤ (fieldAt fields i).box.length) then
      match acc.1 with
      | none =>
          if (fieldAt fields i).box.getD 0 0 < 200 then
            (some ((fieldAt fields i).box.getD 0 0), some (fieldAt fields i).text)
          else acc
      | some mx =>
          if (fieldAt fields i).box.getD 0 0 < mx ∧
              (fieldAt fields i).box.getD 0 0 < 200 then
            (some ((fieldAt fields i).box.getD 0 0), some (fieldAt fields i).text)
          else acc
    else acc) (none, none)).2

/-- Closest column header to an x coordinate: running minimum of the
distance with strict improvement over the header map in insertion order,
so the first minimal entry wins. -/
def closestHeader (headers : List (ℚ × String)) (x : ℚ) : Option String :=
  (headers.foldl (fun (acc : Option ℚ × Option String) p =>
    match acc.1 with
    | none => (some |p.1 - x|, some p.2)
    | some md => if |p.1 - x| < md then (some |p.1 - x|, some p.2) else acc)
    (none, none)).2

/-- Context string synthesized by the single-axis parser, with Python
truthiness on both optional strings. -/
def singleContext (rid : Option String) (idx : Nat) (ch : Option String) : String :=
  if pyTruthy ch then
    if pyTruthy rid then rid.getD "" ++ " - " ++ ch.getD ""
    else "Row " ++ toString idx ++ " - " ++ ch.getD ""
  else
    if pyTruthy rid then rid.getD ""
    else "Row " ++ toString idx

/-- Assignments produced for one data row of a single-axis table: each
empty-text entry with a parseable box receives a context. -/
def singleRowAssign (fields : List TField) (headers : List (ℚ × String))
    (rid : Option String) (idx : Nat) (is : List Nat) : List (Nat × String) :=
  is.filterMap (fun i =>
    if (fieldAt fields i).text == "" && decide (4 ≤ (fieldAt fields i).box.length) then
      some (i, singleContext rid idx
        (closestHeader headers ((fieldAt fields i).box.getD 0 0)))
    else none)

/-- All context assignments of the single-axis parser: no header row means
no assignments; otherwise every sorted row other than the header row (the
row index of enumerate counts the header row too) is processed. -/
def singleAxisAssignments (fields : List TField) : List (Nat × String) :=
  match findHeaderRow fields (sortRows (singleRows fields)) with
  | none => []
  | some hr =>
      (sortRows (singleRows fields)).enum.flatMap (fun p =>
        if p.2.1 == hr.1 then []
        else singleRowAssign fields (columnHeaders fields hr.2)
          (rowIdentifier fields p.2.2) p.1 p.2.2)

/-- Rebuild the fields list applying the in-place context mutations: the
field at an assigned index gets its context key set (the last assignment
to an index wins, as consecutive dict writes would). -/
def applyAssignments (fields : List TField) (asg : List (Nat × String)) :
    List TField :=
  fields.enum.map (fun p =>
    match (asg.filter (fun a => a.1 == p.1)).getLast? with
    | some a => { p.2 with context := some a.2 }
    | none => p.2)

/-- Embedding of TableParser._parse_single_axis_table. -/
def parseSingleAxisTable (t : TTable) : TTable :=
  { t with fields := applyAssignments t.fields (singleAxisAssignments t.fields) }

/-- Round-half-to-even on rationals, as the Python round builtin. -/
def pyRound (q : ℚ) : ℤ :=
  if q - Int.floor q < 1/2 then Int.floor q
  else if q - Int.floor q > 1/2 then Int.floor q + 1
  else if Int.floor q % 2 = 0 then Int.floor q else Int.floor q + 1

/-- Row key of the double-axis parser: round(y / 5) * 5. -/
def doubleRowKey (y : ℚ) : ℚ := (pyRound (y / 5) : ℚ) * 5

/-- Append an index under an exact row key, in dict insertion order. -/
def assocAppend (k : ℚ) (i : Nat) : List (ℚ × List Nat) → List (ℚ × List Nat)
  | [] => [(k, [i])]
  | (rk, is) :: rest =>
      if rk == k then (rk, is ++ [i]) :: rest
      else (rk, is) :: assocAppend k i rest

/-- Row groups of the double-axis parser, keyed by the rounded y. -/
def doubleRows (fields : List TField) : List (ℚ × List Nat) :=
  (fields.enum.filter (fun p => p.2.type == "field" &&
      decide (4 ≤ p.2.box.length))).foldl
    (fun rows p => assocAppend (doubleRowKey (p.2.box.getD 1 0)) p.1 rows) []

/-- Header-row search of the double-axis parser: the first row with any
non-empty text. -/
def doubleFindHeader (fields : List TField) (rows : List (ℚ × List Nat)) :
    Option (ℚ × List Nat) :=
  rows.find? (fun r => r.2.any (fun i => (fieldAt fields i).text != ""))

/-- Value lookup in an association list with unique keys. -/
def assocLookup (l : List (ℚ × String)) (k : ℚ) : Option String :=
  (l.find? (fun p => p.1 == k)).map Prod.snd

/-- Closest key of an association list to a target, running minimum with
strict improvement: the first minimal key in insertion order, matching
both the explicit loop and the min builtin with a distance key. -/
def closestKey (l : List (ℚ × String)) (target : ℚ) : Option ℚ :=
  (l.foldl (fun (st : Option ℚ × Option ℚ) p =>
    match st.1 with
    | none => (some |p.1 - target|, some p.1)
    | some md => if |p.1 - target| < md then (some |p.1 - target|, some p.1) else st)
    (none, none)).2

/-- First pass of the double-axis row headers: each non-header row with a
leftmost text entry below x=200 records that text under its row key. -/
def rowHeadersFirst (fields : List TField) (rows : List (ℚ × List Nat))
    (hy : ℚ) : List (ℚ × String) :=
  rows.foldl (fun acc r =>
    if r.1 == hy then acc
    else
      match rowIdentifier fields r.2 with
      | some t => dictInsert acc r.1 t
      | none => acc) []

/-- Second pass: a row without a header inherits the header of the closest
keyed row, read from the growing map itself; the Python truthiness test on
the closest key skips inheritance when that key is 0. -/
def fillRowHeaders (rh : List (ℚ × String)) (rows : List (ℚ × List Nat))
    (hy : ℚ) : List (ℚ × String) :=
  rows.foldl (fun acc r =>
    if r.1 == hy || acc.any (fun p => p.1 == r.1) then acc
    else
      match closestKey acc r.1 with
      | none => acc
      | some cy =>
          if cy == 0 then acc
          else
            match assocLookup acc cy with
            | some v => dictInsert acc r.1 v
            | none => acc) rh

/-- Assignments for one data row of a double-axis table.  The closest
column x is computed with the min builtin over the header keys, which
raises ValueError on an empty header map: that path is the none result. -/
def doubleRowAssign (fields : List TField) (headers : List (ℚ × String))
    (rhv : String) : List Nat → Option (List (Nat × String))
  | [] => some []
  | i :: rest =>
      if (fieldAt fields i).text == "" && decide (4 ≤ (fieldAt fields i).box.length) then
        match closestKey headers ((fieldAt fields i).box.getD 0 0) with
        | none => none
        | some cx =>
            (doubleRowAssign fields headers rhv rest).map
              (fun l => (i, rhv ++ " " ++
                ((assocLookup headers cx).getD "Unknown Column")) :: l)
      else doubleRowAssign fields headers rhv rest

/-- Assignment pass over the sorted rows of a double-axis table: the
header row is skipped, a row whose header is missing or empty is skipped
(Python truthiness), other rows contribute their assignments. -/
def doubleAssignRows (fields : List TField) (headers : List (ℚ × String))
    (rh : List (ℚ × String)) (hy : ℚ) :
    List (ℚ × List Nat) → Option (List (Nat × String))
  | [] => some []
  | r :: rest =>
      if r.1 == hy then doubleAssignRows fields headers rh hy rest
      else
        match assocLookup rh r.1 with
        | none => doubleAssignRows fields headers rh hy rest
        | some rhv =>
            if rhv == "" then doubleAssignRows fields headers rh hy rest
            else
              match doubleRowAssign fields headers rhv r.2 with
              | none => none
              | some l1 =>
                  match doubleAssignRows fields headers rh hy rest with
                  | none => none
                  | some l2 => some (l1 ++ l2)

/-- All context assignments of the double-axis parser; none marks the
ValueError of the min builtin on an empty header map. -/
def doubleAxisAssignments (fields : List TField) : Option (List (Nat × String)) :=
  match doubleFindHeader fields (sortRows (doubleRows fields)) with
  | none => some []
  | some hr =>
      doubleAssignRows fields (columnHeaders fields hr.2)
        (fillRowHeaders
          (rowHeadersFirst fields (sortRows (doubleRows fields)) hr.1)
          (sortRows (doubleRows fields)) hr.1)
        hr.1 (sortRows (doubleRows fields))

/-- Embedding of TableParser._parse_double_axis_table. -/
def parseDoubleAxisTable (t : TTable) : Option TTable :=
  (doubleAxisAssignments t.fields).map
    (fun asg => { t with fields := applyAssignments t.fields asg })

/-- Per-table dispatch of TableParser.parse_tables. -/
def parseTable (t : TTable) : Option TTable :=
  if is_double_axis_table t.fields then parseDoubleAxisTable t
  else some (parseSingleAxisTable t)

/-- Embedding of TableParser.parse_tables (also process_tables and
process_document_json): every table of the data map is parsed in place;
an exception anywhere aborts the call. -/
def parse_tables : List (String × TTable) → Option (List (String × TTable))
  | [] => some []
  | p :: rest =>
      match parseTable p.2 with
      | none => none
      | some t2 =>
          match parse_tables rest with
          | none => none
          | some r => some ((p.1, t2) :: r)

/-- Relation between an input field and the corresponding output field of
the table parser: identical except possibly for the context key, and a
changed context implies the input text was empty and the new context is a
present string. -/
def fieldUpdatedOnlyContext (fIn fOut : TField) : Prop :=
  fOut.id = fIn.id ∧ fOut.type = fIn.type ∧ fOut.text = fIn.text ∧
  fOut.box = fIn.box ∧ fOut.confidence = fIn.confidence ∧
  (fOut.context ≠ fIn.context → fIn.text = "" ∧ ∃ c, fOut.context = some c)

/-- Relation between an input table entry and the corresponding output
entry of parse_tables: same key and table metadata, fields pointwise
updated only in their context. -/
def tableUpdatedOnlyContext (pIn pOut : String × TTable) : Prop :=
  pOut.1 = pIn.1 ∧ pOut.2.box = pIn.2.box ∧
  pOut.2.confidence = pIn.2.confidence ∧
  pOut.2.parent_id = pIn.2.parent_id ∧
  List.Forall₂ fieldUpdatedOnlyContext pIn.2.fields pOut.2.fields

/-- Single-header example table used for the context-format theorems: a
header row at y=10 (all x at or beyond the 200px left margin, so the
double-axis test cannot fire) whose first header text is the parameter,
and one data row at y=30 holding a single empty field nearest to that
header. -/
def c7NoLabel (h : String) : TTable :=
  ⟨[100, 20, 600, 40], 9/10, "sec1",
    [⟨"h1", "field", h, [210, 10, 30, 10], 9/10, none⟩,
     ⟨"h2", "field", "Number", [400, 10, 30, 10], 9/10, none⟩,
     ⟨"h3", "field", "Expiration", [600, 10, 40, 10], 9/10, none⟩,
     ⟨"e1", "field", "", [212, 30, 30, 10], 9/10, none⟩]⟩

/-- Expected parse of the no-label example: the empty field gains the
context Row 1 - header; everything else is unchanged. -/
def c7NoLabelOut (h : String) : TTable :=
  ⟨[100, 20, 600, 40], 9/10, "sec1",
    [⟨"h1", "field", h, [210, 10, 30, 10], 9/10, none⟩,
     ⟨"h2", "field", "Number", [400, 10, 30, 10], 9/10, none⟩,
     ⟨"h3", "field", "Expiration", [600, 10, 40, 10], 9/10, none⟩,
     ⟨"e1", "field", "", [212, 30, 30, 10], 9/10, some ("Row 1 - " ++ h)⟩]⟩

/-- Variant of the example with a distinct row label in the data row: a
non-empty text at x=5 (left of the 200px margin). -/
def c7Label (h rl : String) : TTable :=
  ⟨[100, 20, 600, 40], 9/10, "sec1",
    [⟨"h1", "field", h, [210, 10, 30, 10], 9/10, none⟩,
     ⟨"h2", "field", "Number", [400, 10, 30, 10], 9/10, none⟩,
     ⟨"h3", "field", "Expiration", [600, 10, 40, 10], 9/10, none⟩,
     ⟨"e1", "field", "", [212, 30, 30, 10], 9/10, none⟩,
     ⟨"r1", "field", rl, [5, 30, 20, 10], 9/10, none⟩]⟩

/-- Expected parse of the labelled example: the empty field gains the
context label - header. -/
def c7LabelOut (h rl : String) : TTable :=
  ⟨[100, 20, 600, 40], 9/10, "sec1",
    [⟨"h1", "field", h, [210, 10, 30, 10], 9/10, none⟩,
     ⟨"h2", "field", "Number", [400, 10, 30, 10], 9/10, none⟩,
     ⟨"h3", "field", "Expiration", [600, 10, 40, 10], 9/10, none⟩,
     ⟨"e1", "field", "", [212, 30, 30, 10], 9/10, some (rl ++ " - " ++ h)⟩,
     ⟨"r1", "field", rl, [5, 30, 20, 10], 9/10, none⟩]⟩

/-! Embedding of merge_table_results_with_ocr from src/table_parser.py.
The function's contract is about mutation, so this part of the embedding
makes object identity explicit: a store maps addresses to node records,
the children key of a node holds addresses, copy.deepcopy allocates fresh
addresses, and the in-place assignments child[children] = ... and
child[metadata] = ... are store writes.  The optional keys the function
reads with dict.get (type, id, children, metadata) are Option fields;
other payload entries of a node are irrelevant to the function and are
represented by the node's remaining fields being part of the copied
record.  Python recursion is modelled with fuel: fuel zero truncates (the
Python original would not terminate on a cyclic graph), and every theorem
below holds for every fuel.  Python deepcopy memoizes shared subobjects;
the model copies a tree, which agrees with it on tree-shaped input and
does not affect which pre-existing addresses are written. -/

/-- Heap node: the dict keys merge_table_results_with_ocr reads or
writes. -/
structure PNode where
  type : Option String
  id : Option String
  children : Option (List Nat)
  metadata : Option String
deriving DecidableEq, Repr, Inhabited

/-- Store: memory from addresses to nodes plus the allocation watermark
(all live input addresses are below next; fresh allocations start at
next). -/
structure Store where
  mem : Nat → PNode
  next : Nat

/-- Processed-table value: the fields list (addresses of processed field
objects) and the optional metadata the merge copies over. -/
structure PTable where
  fields : List Nat
  metadata : Option String
deriving Repr

/-- Write the children key of a node. -/
def writeChildren (σ : Store) (a : Nat) (cs : List Nat) : Store :=
  ⟨fun x => if x = a then { σ.mem a with children := some cs } else σ.mem x,
    σ.next⟩

/-- Write the metadata key of a node. -/
def writeMetadata (σ : Store) (a : Nat) (m : String) : Store :=
  ⟨fun x => if x = a then { σ.mem a with metadata := some m } else σ.mem x,
    σ.next⟩

/-- Allocate a fresh node, returning its address. -/
def allocNode (σ : Store) (n : PNode) : Store × Nat :=
  (⟨fun x => if x = σ.next then n else σ.mem x, σ.next + 1⟩, σ.next)

/-- Embedding of copy.deepcopy on the subtree rooted at an address: every
node of the subtree is re-allocated at a fresh address. -/
def deepcopy : Nat → Store → Nat → Store × Nat
  | 0, σ, a => allocNode σ { σ.mem a with children := none }
  | fuel + 1, σ, a =>
      match (σ.mem a).children with
      | none => allocNode σ (σ.mem a)
      | some cs =>
          let st := cs.foldl (fun (st : Store × List Nat) c =>
            ((deepcopy fuel st.1 c).1, st.2 ++ [(deepcopy fuel st.1 c).2])) (σ, [])
          allocNode st.1 { σ.mem a with children := some st.2 }

/-- Lookup of a table id in the table mapping (a dict with unique keys). -/
def tmLookup (tm : List (String × PTable)) (tid : String) : Option PTable :=
  (tm.find? (fun p => p.1 == tid)).map Prod.snd

/-- Field mapping of a table child: id (possibly absent) to address, for
children of type field, later entries overwriting. -/
def fieldMappingOf (σ : Store) (cs : List Nat) : List (Option String × Nat) :=
  cs.foldl (fun fm a =>
    if (σ.mem a).type = some "field" then dictInsert fm ((σ.mem a).id) a
    else fm) []

/-- Lookup in the field mapping. -/
def fmLookup (fm : List (Option String × Nat)) (fid : Option String) : Option Nat :=
  (fm.find? (fun p => p.1 == fid)).map Prod.snd

/-- Merge of two nodes, as dict.copy followed by dict.update: keys of the
second node overwrite keys of the first. -/
def mergeNode (a b : PNode) : PNode :=
  ⟨match b.type with | some t => some t | none => a.type,
    match b.id with | some i => some i | none => a.id,
    match b.children with | some c => some c | none => a.children,
    match b.metadata with | some m => some m | none => a.metadata⟩

/-- New children of a matched table child: one entry per processed field,
either a freshly allocated merged node (when the field id matches an
original field child) or the processed field object itself. -/
def buildNewChildren (fm : List (Option String × Nat)) :
    List Nat → Store → List Nat → Store × List Nat
  | [], σ, acc => (σ, acc)
  | pf :: rest, σ, acc =>
      match fmLookup fm ((σ.mem pf).id) with
      | some orig =>
          buildNewChildren fm rest (allocNode σ (mergeNode (σ.mem orig) (σ.mem pf))).1
            (acc ++ [(allocNode σ (mergeNode (σ.mem orig) (σ.mem pf))).2])
      | none => buildNewChildren fm rest σ (acc ++ [pf])

/-- Rewrite of one child when it is a table present in the mapping: build
the new children list (processed fields first, then the non-field original
children), write it into the child, and copy the metadata when present.
Any other child is left alone. -/
def tableRewrite (tm : List (String × PTable)) (σ : Store) (c : Nat) : Store :=
  if (σ.mem c).type = some "table" then
    match (σ.mem c).id with
    | none => σ
    | some tid =>
        match tmLookup tm tid with
        | none => σ
        | some pt =>
            let oldKids := ((σ.mem c).children).getD []
            let fm := fieldMappingOf σ oldKids
            let st := buildNewChildren fm pt.fields σ []
            let nonf := oldKids.filter (fun a => !((σ.mem a).type = some "field"))
            let σ4 := writeChildren st.1 c (st.2 ++ nonf)
            match pt.metadata with
            | some m => writeMetadata σ4 c m
            | none => σ4
  else σ

/-- Embedding of the inner update_tables_in_children: process each child
in order (rewriting tables in place) and recurse into its current
children when the key is present. -/
def updateTablesInChildren (tm : List (String × PTable)) :
    Nat → Store → List Nat → Store
  | 0, σ, _ => σ
  | fuel + 1, σ, children =>
      children.foldl (fun σ c =>
        match ((tableRewrite tm σ c).mem c).children with
        | some cs => updateTablesInChildren tm fuel (tableRewrite tm σ c) cs
        | none => tableRewrite tm σ c) σ

/-- Embedding of merge_table_results_with_ocr: deep-copy the base
predictions, then run the recursive update from the copy's children; the
returned address is the copy. -/
def merge_table_results_with_ocr (fuel : Nat) (σ : Store) (base : Nat)
    (tm : List (String × PTable)) : Store × Nat :=
  match (((deepcopy fuel σ base).1).mem (deepcopy fuel σ base).2).children with
  | some cs =>
      (updateTablesInChildren tm fuel (deepcopy fuel σ base).1 cs,
        (deepcopy fuel σ base).2)
  | none => deepcopy fuel σ base

/-- Reachability through children links in a fixed store. -/
inductive Reaches (σ : Store) (root : Nat) : Nat → Prop
  | refl : Reaches σ root root
  | child {a b : Nat} (ha : Reaches σ root a)
      (hcs : ∃ cs, ((σ.mem a).children = some cs ∧ b ∈ cs)) : Reaches σ root b

/-- Membership of an address in the object graph of the processed
tables: reachable from some processed field. -/
def procReach (σ : Store) (tm : List (String × PTable)) (b : Nat) : Prop :=
  ∃ p ∈ tm, ∃ f ∈ p.2.fields, Reaches σ f b

/-- Concrete store for the aliasing counterexample: address 0 is the base
root with children 1 and 2; 1 is a table t1 with no children; 2 is a table
t2 whose only child is the field at 3; the processed tables pass address 2
itself off as a processed field of t1. -/
def c10Store : Store :=
  ⟨fun a =>
    if a = 0 then ⟨none, none, some [1, 2], none⟩
    else if a = 1 then ⟨some "table", some "t1", some [], none⟩
    else if a = 2 then ⟨some "table", some "t2", some [3], none⟩
    else if a = 3 then ⟨some "field", some "f0", none, none⟩
    else ⟨none, none, none, none⟩, 4⟩

/-- Table mapping of the aliasing counterexample. -/
def c10TM : List (String × PTable) := [("t1", ⟨[2], none⟩), ("t2", ⟨[], none⟩)]

/-- Addresses the merge is allowed to have touched relative to an initial
store: fresh allocations (at or above the initial watermark and below the
current one) and the object graph of the processed tables. -/
def Allowed (σ0 : Store) (tm : List (String × PTable)) (σ : Store)
    (x : Nat) : Prop :=
  (σ0.next ≤ x ∧ x < σ.next) ∨ procReach σ0 tm x

/-- Invariant of the merge over the store: the watermark only grows,
addresses that are neither fresh nor part of the processed graph are
untouched, and every children link out of an allowed node stays within
the allowed set. -/
def StoreInv (σ0 : Store) (tm : List (String × PTable)) (σ : Store) : Prop :=
  σ0.next ≤ σ.next ∧
  (∀ x, x < σ0.next → ¬ procReach σ0 tm x → σ.mem x = σ0.mem x) ∧
  (∀ x, Allowed σ0 tm σ x → ∀ cs, (σ.mem x).children = some cs →
    ∀ b ∈ cs, Allowed σ0 tm σ b)

/-- Concrete store without aliasing, for the no-mutation witness: the
base root 0 owns table 1 which owns field 2; the processed table t1
carries the separate processed field at address 3. -/
def c10SafeStore : Store :=
  ⟨fun a =>
    if a = 0 then ⟨none, none, some [1], none⟩
    else if a = 1 then ⟨some "table", some "t1", some [2], none⟩
    else if a = 2 then ⟨some "field", some "f0", none, none⟩
    else if a = 3 then ⟨some "field", some "f0", none, none⟩
    else ⟨none, none, none, none⟩, 4⟩

/-- Table mapping of the no-mutation witness. -/
def c10SafeTM : List (String × PTable) := [("t1", ⟨[3], none⟩)]

section ContainmentTheorems

lemma overlapW_le_elem (e c : Elem) : overlapW e c ≤ e.width := by
  unfold overlapW
  have h1 : min e.rightEdge c.rightEdge ≤ e.rightEdge := min_le_left _ _
  have h2 : e.leftEdge ≤ max e.leftEdge c.leftEdge := le_max_left _ _
  have h3 : e.rightEdge - e.leftEdge = e.width := by
    unfold Elem.rightEdge Elem.leftEdge; ring
  linarith

lemma overlapW_le_container (e c : Elem) : overlapW e c ≤ c.width := by
  unfold overlapW
  have h1 : min e.rightEdge c.rightEdge ≤ c.rightEdge := min_le_right _ _
  have h2 : c.leftEdge ≤ max e.leftEdge c.leftEdge := le_max_right _ _
  have h3 : c.rightEdge - c.leftEdge = c.width := by
    unfold Elem.rightEdge Elem.leftEdge; ring
  linarith

lemma overlapH_le_elem (e c : Elem) : overlapH e c ≤ e.height := by
  unfold overlapH
  have h1 : min e.bottomEdge c.bottomEdge ≤ e.bottomEdge := min_le_left _ _
  have h2 : e.topEdge ≤ max e.topEdge c.topEdge := le_max_left _ _
  have h3 : e.bottomEdge - e.topEdge = e.height := by
    unfold Elem.bottomEdge Elem.topEdge; ring
  linarith

lemma tableBranch_isSome (e c : Elem) : ∃ b, tableBranch e c = some b := by
  unfold tableBranch
  split_ifs with h1 h2 h3 h4 h5 <;> try exact ⟨_, rfl⟩
  · push_neg at h1
    exact absurd h2 (ne_of_gt (lt_of_lt_of_le h1.2 (overlapH_le_elem e c)))
  · push_neg at h1
    have hw : 0 < min e.width c.width :=
      lt_min (lt_of_lt_of_le h1.1 (overlapW_le_elem e c))
        (lt_of_lt_of_le h1.1 (overlapW_le_container e c))
    exact absurd h4 (ne_of_gt hw)

lemma absCloseOverlapBranch_isSome (e c : Elem) (thr prox : ℚ) :
    ∃ b, absCloseOverlapBranch e c thr prox = some b := by
  unfold absCloseOverlapBranch
  split_ifs with h1 h2 h3 <;> try exact ⟨_, rfl⟩
  push_neg at h1
  have hw : 0 < e.width := lt_of_lt_of_le h1.1 (overlapW_le_elem e c)
  have hh : 0 < e.height := lt_of_lt_of_le h1.2 (overlapH_le_elem e c)
  exact absurd h3 (ne_of_gt (mul_pos hw hh))

lemma defaultBranch_isSome (e c : Elem) (t : ℚ) :
    ∃ b, defaultBranch e c t = some b := by
  unfold defaultBranch
  split_ifs with h1 h2 <;> try exact ⟨_, rfl⟩
  push_neg at h1
  have hw : 0 < e.width := lt_of_lt_of_le h1.1 (overlapW_le_elem e c)
  have hh : 0 < e.height := lt_of_lt_of_le h1.2 (overlapH_le_elem e c)
  exact absurd h2 (ne_of_gt (mul_pos hw hh))

/-- C9: the containment predicates of both spatial_utils.py and
doc_structure.py terminate and return a boolean on every input, with no
division by zero: every division is preceded by a guard returning false on
non-positive overlap, and a zero element extent forces the overlap to be
non-positive. -/
theorem c9_no_division_by_zero (element container : Elem) (threshold : ℚ) :
    (∃ b, spatial_is_contained_within element container threshold = some b) ∧
    (∃ b, doc_is_contained_within element container threshold = some b) := by
  constructor
  · unfold spatial_is_contained_within
    split_ifs <;>
      first
      | exact tableBranch_isSome _ _
      | exact absCloseOverlapBranch_isSome _ _ _ _
      | exact defaultBranch_isSome _ _ _
      | exact ⟨_, rfl⟩
  · unfold doc_is_contained_within
    split_ifs <;>
      first
      | exact tableBranch_isSome _ _
      | exact absCloseOverlapBranch_isSome _ _ _ _
      | exact defaultBranch_isSome _ _ _

lemma tableBranch_eq_true_iff (e c : Elem) :
    tableBranch e c = some true ↔
      (0 < overlapW e c ∧ 0 < overlapH e c ∧
        3/10 ≤ overlapH e c / e.height ∧
        1/5 ≤ overlapW e c / min e.width c.width) := by
  unfold tableBranch
  split_ifs with h1 h2 h3 h4 h5
  · constructor
    · intro h; simp at h
    · rintro ⟨hw, hh, -⟩
      exfalso
      rcases h1 with h | h
      · exact absurd hw (not_lt.mpr h)
      · exact absurd hh (not_lt.mpr h)
  · push_neg at h1
    exact absurd h2 (ne_of_gt (lt_of_lt_of_le h1.2 (overlapH_le_elem e c)))
  · push_neg at h1
    constructor
    · intro h; simp at h
    · rintro ⟨-, -, hr, -⟩; exact absurd hr (not_le.mpr h3)
  · push_neg at h1
    have hw : 0 < min e.width c.width :=
      lt_min (lt_of_lt_of_le h1.1 (overlapW_le_elem e c))
        (lt_of_lt_of_le h1.1 (overlapW_le_container e c))
    exact absurd h4 (ne_of_gt hw)
  · push_neg at h1
    constructor
    · intro h; simp at h
    · rintro ⟨-, -, -, hr⟩; exact absurd hr (not_le.mpr h5)
  · push_neg at h1 h3 h5
    simp only [Option.some_inj, decide_eq_true_eq]
    constructor
    · intro _; exact ⟨h1.1, h1.2, h3, h5⟩
    · intro _
      -- with positive vertical overlap the second proximity disjunct holds
      have htop : e.topEdge ≤ c.bottomEdge + 100 := by
        have h6 : e.topEdge ≤ max e.topEdge c.topEdge := le_max_left _ _
        have h7 : min e.bottomEdge c.bottomEdge ≤ c.bottomEdge := min_le_right _ _
        have h8 := h1.2
        unfold overlapH at h8
        linarith
      have hbot : e.bottomEdge ≥ c.topEdge - 100 := by
        have h6 : c.topEdge ≤ max e.topEdge c.topEdge := le_max_right _ _
        have h7 : min e.bottomEdge c.bottomEdge ≤ e.bottomEdge := min_le_left _ _
        have h8 := h1.2
        unfold overlapH at h8
        linarith
      exact Or.inr ⟨htop, hbot⟩

/-- C2 (amended): for an element of class table, both containment
predicates return true exactly when the overlap is positive, the vertical
overlap ratio is at least 0.3 and the horizontal overlap ratio is at least
0.2; the 100px span condition of the spec is not required, because the
second disjunct of the vertical-proximity test in the code is already
implied by positive vertical overlap. -/
theorem c2_table_rule (element container : Elem) (threshold : ℚ)
    (h : element.cls = "table") :
    (spatial_is_contained_within element container threshold = some true ↔
      (0 < overlapW element container ∧ 0 < overlapH element container ∧
        3/10 ≤ overlapH element container / element.height ∧
        1/5 ≤ overlapW element container / min element.width container.width)) ∧
    (doc_is_contained_within element container threshold = some true ↔
      (0 < overlapW element container ∧ 0 < overlapH element container ∧
        3/10 ≤ overlapH element container / element.height ∧
        1/5 ≤ overlapW element container / min element.width container.width)) := by
  unfold spatial_is_contained_within doc_is_contained_within
  rw [if_pos h, if_pos h]
  exact ⟨tableBranch_eq_true_iff element container, tableBranch_eq_true_iff element container⟩

theorem c2_table_rule_witness :
    (⟨"table", 0, 500, 200, 1000⟩ : Elem).cls = "table" ∧
    spatial_is_contained_within ⟨"table", 0, 500, 200, 1000⟩
      ⟨"section", 0, 200, 200, 400⟩ (4/5) = some true :=
  ⟨rfl, (c2_table_rule ⟨"table", 0, 500, 200, 1000⟩
    ⟨"section", 0, 200, 200, 400⟩ (4/5) rfl).1.mpr (by with_unfolding_all decide)⟩

/-- C2 (counterexample): a tall table protruding more than 100px below the
section satisfies both ratio conditions and is accepted by the code, yet
its vertical span does not lie within the section's span extended by the
100px margin, so the containment the claim states (which requires that
span condition) disagrees with the code at this input. -/
theorem c2_counterexample :
    spatial_is_contained_within ⟨"table", 0, 500, 200, 1000⟩
        ⟨"section", 0, 200, 200, 400⟩ (4/5) = some true ∧
    doc_is_contained_within ⟨"table", 0, 500, 200, 1000⟩
        ⟨"section", 0, 200, 200, 400⟩ (4/5) = some true ∧
    ¬ specTableContained ⟨"table", 0, 500, 200, 1000⟩
        ⟨"section", 0, 200, 200, 400⟩ := by with_unfolding_all decide

lemma overlapW_of_nested (S T : Elem)
    (hl : S.leftEdge ≤ T.leftEdge) (hr : T.rightEdge ≤ S.rightEdge) :
    overlapW S T = T.width := by
  unfold overlapW
  rw [min_eq_right hr, max_eq_right hl]
  unfold Elem.rightEdge Elem.leftEdge; ring

lemma overlapH_of_nested (S T : Elem)
    (ht : S.topEdge ≤ T.topEdge) (hb : T.bottomEdge ≤ S.bottomEdge) :
    overlapH S T = T.height := by
  unfold overlapH
  rw [min_eq_right hb, max_eq_right ht]
  unfold Elem.bottomEdge Elem.topEdge; ring

lemma defaultBranch_nested_small (S T : Elem)
    (hl : S.leftEdge ≤ T.leftEdge) (hr : T.rightEdge ≤ S.rightEdge)
    (ht : S.topEdge ≤ T.topEdge) (hb : T.bottomEdge ≤ S.bottomEdge)
    (harea : T.width * T.height ≤ 4/5 * (S.width * S.height)) :
    defaultBranch S T (4/5) = some false := by
  have hw := overlapW_of_nested S T hl hr
  have hh := overlapH_of_nested S T ht hb
  have hWle : T.width ≤ S.width := by
    have h1 : S.rightEdge - S.leftEdge = S.width := by
      unfold Elem.rightEdge Elem.leftEdge; ring
    have h2 : T.rightEdge - T.leftEdge = T.width := by
      unfold Elem.rightEdge Elem.leftEdge; ring
    linarith
  have hHle : T.height ≤ S.height := by
    have h1 : S.bottomEdge - S.topEdge = S.height := by
      unfold Elem.bottomEdge Elem.topEdge; ring
    have h2 : T.bottomEdge - T.topEdge = T.height := by
      unfold Elem.bottomEdge Elem.topEdge; ring
    linarith
  unfold defaultBranch
  split_ifs with h1 h2
  · rfl
  · push_neg at h1
    rw [hw] at h1
    rw [hh] at h1
    have hpos : 0 < S.width * S.height :=
      mul_pos (lt_of_lt_of_le h1.1 hWle) (lt_of_lt_of_le h1.2 hHle)
    exact absurd h2 (ne_of_gt hpos)
  · push_neg at h1
    rw [hw] at h1 ⊢
    rw [hh] at h1 ⊢
    have hpos : 0 < S.width * S.height :=
      mul_pos (lt_of_lt_of_le h1.1 hWle) (lt_of_lt_of_le h1.2 hHle)
    have hratio : ¬ (T.width * T.height / (S.width * S.height) > 4/5) := by
      rw [gt_iff_lt, not_lt, div_le_iff₀ hpos]
      linarith
    simp [hratio]

/-- C3 (amended): for a section S and a table T with the box of T nested
inside the box of S, the call contains(S, T) falls through every special
case to the default overlap rule with threshold 0.8, so it returns false
provided the area of T is at most 0.8 times the area of S; with an area
ratio strictly between 0.8 and 1 the predicate instead returns true, so
the area hypothesis of the spec sentence must be strengthened from
"S has larger area" to this threshold bound. -/
theorem c3_section_in_table_rule (S T : Elem)
    (hS : S.cls = "section") (hT : T.cls = "table")
    (hl : S.leftEdge ≤ T.leftEdge) (hr : T.rightEdge ≤ S.rightEdge)
    (ht : S.topEdge ≤ T.topEdge) (hb : T.bottomEdge ≤ S.bottomEdge)
    (harea : T.width * T.height ≤ 4/5 * (S.width * S.height)) :
    spatial_is_contained_within S T (4/5) = some false ∧
    doc_is_contained_within S T (4/5) = some false := by
  have hdef := defaultBranch_nested_small S T hl hr ht hb harea
  constructor
  · unfold spatial_is_contained_within
    rw [hS, hT]
    simpa using hdef
  · unfold doc_is_contained_within
    rw [hS, hT]
    simpa using hdef

theorem c3_section_in_table_rule_witness :
    spatial_is_contained_within ⟨"section", 0, 0, 100, 100⟩
        ⟨"table", 0, 0, 50, 50⟩ (4/5) = some false ∧
    doc_is_contained_within ⟨"section", 0, 0, 100, 100⟩
        ⟨"table", 0, 0, 50, 50⟩ (4/5) = some false :=
  c3_section_in_table_rule ⟨"section", 0, 0, 100, 100⟩ ⟨"table", 0, 0, 50, 50⟩
    rfl rfl (by with_unfolding_all decide) (by with_unfolding_all decide)
    (by with_unfolding_all decide) (by with_unfolding_all decide)
    (by with_unfolding_all decide)

/-- C3 (counterexample): a table T nested strictly inside a section S of
larger area, but with area ratio 0.9025 above the default threshold 0.8:
both predicates return true on contains(S, T), refuting the claim that the
larger area of S alone forces false. -/
theorem c3_counterexample :
    ((⟨"section", 0, 0, 100, 100⟩ : Elem).leftEdge ≤
        (⟨"table", 0, 0, 95, 95⟩ : Elem).leftEdge ∧
      (⟨"table", 0, 0, 95, 95⟩ : Elem).rightEdge ≤
        (⟨"section", 0, 0, 100, 100⟩ : Elem).rightEdge ∧
      (⟨"section", 0, 0, 100, 100⟩ : Elem).topEdge ≤
        (⟨"table", 0, 0, 95, 95⟩ : Elem).topEdge ∧
      (⟨"table", 0, 0, 95, 95⟩ : Elem).bottomEdge ≤
        (⟨"section", 0, 0, 100, 100⟩ : Elem).bottomEdge) ∧
    (⟨"table", 0, 0, 95, 95⟩ : Elem).width * (⟨"table", 0, 0, 95, 95⟩ : Elem).height <
      (⟨"section", 0, 0, 100, 100⟩ : Elem).width *
        (⟨"section", 0, 0, 100, 100⟩ : Elem).height ∧
    spatial_is_contained_within ⟨"section", 0, 0, 100, 100⟩
        ⟨"table", 0, 0, 95, 95⟩ (4/5) = some true ∧
    doc_is_contained_within ⟨"section", 0, 0, 100, 100⟩
        ⟨"table", 0, 0, 95, 95⟩ (4/5) = some true := by
  with_unfolding_all decide

lemma absCloseOverlapBranch_eq_true_iff (e c : Elem) (thr prox : ℚ) :
    absCloseOverlapBranch e c thr prox = some true ↔
      (0 < overlapW e c ∧ 0 < overlapH e c ∧
        (|e.topEdge - c.bottomEdge| < prox ∨ |e.bottomEdge - c.topEdge| < prox ∨
          (e.topEdge ≥ c.topEdge ∧ e.bottomEdge ≤ c.bottomEdge)) ∧
        overlapW e c * overlapH e c / (e.width * e.height) > thr) := by
  unfold absCloseOverlapBranch
  split_ifs with h1 h2 h3
  · constructor
    · intro h; simp at h
    · rintro ⟨hw, hh, -⟩
      exfalso
      rcases h1 with h | h
      · exact absurd hw (not_lt.mpr h)
      · exact absurd hh (not_lt.mpr h)
  · push_neg at h1
    exact absurd h3 (ne_of_gt (mul_pos
      (lt_of_lt_of_le h1.1 (overlapW_le_elem e c))
      (lt_of_lt_of_le h1.2 (overlapH_le_elem e c))))
  · push_neg at h1
    simp only [Option.some_inj, decide_eq_true_eq]
    constructor
    · intro hr; exact ⟨h1.1, h1.2, h2, hr⟩
    · rintro ⟨-, -, -, hr⟩; exact hr
  · constructor
    · intro h; simp at h
    · rintro ⟨-, -, hclose, -⟩; exact absurd hclose h2

/-- C4 (amended): a checkbox_option tested against a checkbox_context is
captured by the earlier checkbox-or-checkbox_option rule of the ordered
chain, so the dedicated checkbox_option rule (threshold 0.2, proximity
120px) is unreachable: the doc_structure predicate returns true exactly
when the overlap is positive, the boxes are vertically close within 100px
and the overlap ratio exceeds 0.1; the spatial_utils predicate uses 150px
and 0.05 instead. -/
theorem c4_option_rule (element container : Elem) (threshold : ℚ)
    (he : element.cls = "checkbox_option")
    (hc : container.cls = "checkbox_context") :
    (doc_is_contained_within element container threshold = some true ↔
      (0 < overlapW element container ∧ 0 < overlapH element container ∧
        (|element.topEdge - container.bottomEdge| < 100 ∨
          |element.bottomEdge - container.topEdge| < 100 ∨
          (element.topEdge ≥ container.topEdge ∧
            element.bottomEdge ≤ container.bottomEdge)) ∧
        overlapW element container * overlapH element container /
          (element.width * element.height) > 1/10)) ∧
    (spatial_is_contained_within element container threshold = some true ↔
      (0 < overlapW element container ∧ 0 < overlapH element container ∧
        (|element.topEdge - container.bottomEdge| < 150 ∨
          |element.bottomEdge - container.topEdge| < 150 ∨
          (element.topEdge ≥ container.topEdge ∧
            element.bottomEdge ≤ container.bottomEdge)) ∧
        overlapW element container * overlapH element container /
          (element.width * element.height) > 1/20)) := by
  constructor
  · have hroute : doc_is_contained_within element container threshold =
        absCloseOverlapBranch element container (1/10) 100 := by
      unfold doc_is_contained_within
      rw [he, hc]
      simp
    rw [hroute]
    exact absCloseOverlapBranch_eq_true_iff element container (1/10) 100
  · have hroute : spatial_is_contained_within element container threshold =
        absCloseOverlapBranch element container (1/20) 150 := by
      unfold spatial_is_contained_within
      rw [he, hc]
      simp
    rw [hroute]
    exact absCloseOverlapBranch_eq_true_iff element container (1/20) 150

theorem c4_option_rule_witness :
    (⟨"checkbox_option", 0, 0, 100, 20⟩ : Elem).cls = "checkbox_option" ∧
    doc_is_contained_within ⟨"checkbox_option", 0, 0, 100, 20⟩
      ⟨"checkbox_context", 0, 27, 100, 40⟩ (4/5) = some true :=
  ⟨rfl, ((c4_option_rule ⟨"checkbox_option", 0, 0, 100, 20⟩
    ⟨"checkbox_context", 0, 27, 100, 40⟩ (4/5) rfl rfl).1).mpr
    (by with_unfolding_all decide)⟩

/-- C4 (counterexample): a checkbox_option overlapping its
checkbox_context with ratio 0.15 and near edges 57px apart: both predicates
accept it (under the 0.1/100px respectively 0.05/150px constants of the
earlier rule), although the rule the claim states (ratio strictly above
0.2, close within 120px) rejects it. -/
theorem c4_counterexample :
    doc_is_contained_within ⟨"checkbox_option", 0, 0, 100, 20⟩
        ⟨"checkbox_context", 0, 27, 100, 40⟩ (4/5) = some true ∧
    spatial_is_contained_within ⟨"checkbox_option", 0, 0, 100, 20⟩
        ⟨"checkbox_context", 0, 27, 100, 40⟩ (4/5) = some true ∧
    ¬ specOptionContained ⟨"checkbox_option", 0, 0, 100, 20⟩
        ⟨"checkbox_context", 0, 27, 100, 40⟩ := by
  with_unfolding_all decide

end ContainmentTheorems

section HierarchyTheorems

lemma insertByY_perm (d : Detection) (l : List Detection) :
    (insertByY d l).Perm (d :: l) := by
  induction l with
  | nil => exact List.Perm.refl _
  | cons e rest ih =>
    unfold insertByY
    split_ifs with h
    · exact List.Perm.refl _
    · exact (List.Perm.cons e ih).trans (List.Perm.swap d e rest)

lemma sortByY_perm (l : List Detection) : (sortByY l).Perm l := by
  induction l with
  | nil => exact List.Perm.refl _
  | cons d rest ih =>
    exact (insertByY_perm d (sortByY rest)).trans (List.Perm.cons d ih)

lemma contextOut_ids_sound (sorted : List Detection) (ctx : Detection)
    (hctx : ctx ∈ sorted) :
    ∀ id ∈ contextOutIds (mkContextOut sorted ctx),
      id ∈ sorted.map Detection.detection_id := by
  intro id hid
  unfold contextOutIds mkContextOut at hid
  rcases List.mem_cons.mp hid with rfl | hid
  · exact List.mem_map_of_mem _ hctx
  · obtain ⟨o, ho, hin⟩ := List.mem_flatMap.mp hid
    unfold contextOptions at ho
    obtain ⟨od, hod, rfl⟩ := List.mem_map.mp ho
    have hodmem : od ∈ sorted := (List.mem_filter.mp hod).1
    rcases List.mem_cons.mp hin with rfl | hin
    · exact List.mem_map_of_mem _ hodmem
    · obtain ⟨cb, hcb, rfl⟩ := List.mem_map.mp hin
      unfold optionCheckboxes at hcb
      obtain ⟨cbd, hcbd, rfl⟩ := List.mem_map.mp hcb
      exact List.mem_map_of_mem _ (List.mem_filter.mp hcbd).1

lemma dictInsert_forall {κ α : Type} [BEq κ] (P : κ × α → Prop)
    (l : List (κ × α)) (k : κ) (v : α)
    (hl : ∀ p ∈ l, P p) (hv : P (k, v)) :
    ∀ p ∈ dictInsert l k v, P p := by
  intro p hp
  unfold dictInsert at hp
  split_ifs at hp with h
  · obtain ⟨q, hq, hpe⟩ := List.mem_map.mp hp
    by_cases hqk : q.1 == k
    · rw [if_pos hqk] at hpe
      rw [← hpe]; exact hv
    · rw [if_neg hqk] at hpe
      rw [← hpe]; exact hl q hq
  · rcases List.mem_append.mp hp with h1 | h2
    · exact hl p h1
    · rcases List.mem_singleton.mp h2 with rfl
      exact hv

lemma tablesStep_sound (sorted preds : List Detection)
    (acc : List (String × TableOut) × List String) (elem : Detection)
    (helem : elem ∈ sorted) (hacc : tablesOK sorted acc.1) :
    tablesOK sorted (tablesStep sorted preds acc elem).1 := by
  unfold tablesStep
  split_ifs with h
  · apply dictInsert_forall _ _ _ _ hacc
    intro id hid
    unfold tableOutIds at hid
    rcases List.mem_cons.mp hid with rfl | hid
    · exact List.mem_map_of_mem _ helem
    · rcases List.mem_append.mp hid with h1 | h2
      · obtain ⟨f, hf, rfl⟩ := List.mem_map.mp h1
        unfold tableFieldsOf at hf
        obtain ⟨fd, hfd, rfl⟩ := List.mem_map.mp hf
        exact List.mem_map_of_mem _ (List.mem_filter.mp hfd).1
      · obtain ⟨cx, hcx, hin⟩ := List.mem_flatMap.mp h2
        obtain ⟨cd, hcd, rfl⟩ := List.mem_map.mp hcx
        have hcdm : cd ∈ sorted := by
          unfold tableContextsOf at hcd
          exact (List.mem_filter.mp hcd).1
        exact contextOut_ids_sound sorted cd hcdm _ hin
  · exact hacc

lemma tablesPassAux_sound (sorted preds : List Detection) :
    ∀ (cursor : List Detection) (acc : List (String × TableOut) × List String),
      (∀ d ∈ cursor, d ∈ sorted) → tablesOK sorted acc.1 →
      tablesOK sorted (tablesPassAux sorted preds cursor acc).1 := by
  intro cursor
  induction cursor with
  | nil => intro acc _ hacc; exact hacc
  | cons e rest ih =>
    intro acc hc hacc
    exact ih _ (fun d hd => hc d (List.mem_cons_of_mem e hd))
      (tablesStep_sound sorted preds acc e (hc e (List.mem_cons_self e rest)) hacc)

lemma sectionsStep_sound (sorted preds : List Detection)
    (tables : List (String × TableOut)) (assigned : List String)
    (secs : List (String × SectionOut)) (elem : Detection)
    (helem : elem ∈ sorted) (htab : tablesOK sorted tables)
    (hsecs : sectionsOK sorted secs) :
    sectionsOK sorted (sectionsStep sorted preds tables assigned secs elem) := by
  unfold sectionsStep
  split_ifs with h
  · apply dictInsert_forall _ _ _ _ hsecs
    intro id hid
    unfold sectionOutIds at hid
    rcases List.mem_cons.mp hid with rfl | hid
    · exact List.mem_map_of_mem _ helem
    · rcases List.mem_append.mp hid with h12 | h3
      · rcases List.mem_append.mp h12 with h1 | h2
        · obtain ⟨f, hf, rfl⟩ := List.mem_map.mp h1
          obtain ⟨fd, hfd, rfl⟩ := List.mem_map.mp hf
          unfold sectionFieldsOf at hfd
          exact List.mem_map_of_mem _ (List.mem_filter.mp hfd).1
        · obtain ⟨p, hp, hin⟩ := List.mem_flatMap.mp h2
          exact htab p (List.mem_of_mem_filter hp) id hin
      · obtain ⟨cx, hcx, hin⟩ := List.mem_flatMap.mp h3
        obtain ⟨cd, hcd, rfl⟩ := List.mem_map.mp hcx
        have hcdm : cd ∈ sorted := by
          unfold sectionContextsOf at hcd
          exact (List.mem_filter.mp hcd).1
        exact contextOut_ids_sound sorted cd hcdm _ hin
  · exact hsecs

lemma sectionsPassAux_sound (sorted preds : List Detection)
    (tables : List (String × TableOut)) (assigned : List String) :
    ∀ (cursor : List Detection) (secs : List (String × SectionOut)),
      (∀ d ∈ cursor, d ∈ sorted) → tablesOK sorted tables →
      sectionsOK sorted secs →
      sectionsOK sorted
        (sectionsPassAux sorted preds tables assigned cursor secs) := by
  intro cursor
  induction cursor with
  | nil => intro secs _ _ hsecs; exact hsecs
  | cons e rest ih =>
    intro secs hc htab hsecs
    exact ih _ (fun d hd => hc d (List.mem_cons_of_mem e hd)) htab
      (sectionsStep_sound sorted preds tables assigned secs e
        (hc e (List.mem_cons_self e rest)) htab hsecs)

/-- C1 (amended): every detection id appearing anywhere in the hierarchy
built by _build_hierarchy is the id of some input detection.  The exact-
once property of the claim fails: detections contained in no section are
dropped from the output (see the counterexample), and a detection inside
several sections is emitted under each of them. -/
theorem c1_hierarchy_ids_sound (predictions : List Detection) (id : String)
    (h : id ∈ hierarchyIds (build_hierarchy predictions)) :
    id ∈ predictions.map Detection.detection_id := by
  unfold hierarchyIds build_hierarchy at h
  obtain ⟨p, hp, hid⟩ := List.mem_flatMap.mp h
  have htab : tablesOK (sortByY predictions)
      (tablesPass (sortByY predictions) predictions).1 := by
    unfold tablesPass
    exact tablesPassAux_sound (sortByY predictions) predictions
      (sortByY predictions) ([], []) (fun d hd => hd) (by intro p hp; cases hp)
  have hsound := sectionsPassAux_sound (sortByY predictions) predictions
    (tablesPass (sortByY predictions) predictions).1
    (tablesPass (sortByY predictions) predictions).2
    (sortByY predictions) [] (fun d hd => hd) htab (by intro p hp; cases hp)
  have hmem := hsound p hp id hid
  obtain ⟨d, hd, rfl⟩ := List.mem_map.mp hmem
  exact List.mem_map_of_mem _ ((sortByY_perm predictions).mem_iff.mp hd)

theorem c1_hierarchy_ids_sound_witness :
    "s1" ∈ hierarchyIds (build_hierarchy
      [⟨"s1", "section", 100, 50, 200, 100, 9/10, 0, "", "", "hdr"⟩]) ∧
    "s1" ∈ [(⟨"s1", "section", 100, 50, 200, 100, 9/10, 0, "", "", "hdr"⟩ :
      Detection)].map Detection.detection_id :=
  ⟨by with_unfolding_all decide,
    c1_hierarchy_ids_sound
      [⟨"s1", "section", 100, 50, 200, 100, 9/10, 0, "", "", "hdr"⟩] "s1"
      (by with_unfolding_all decide)⟩

/-- C1 (counterexample): a single field detection contained in no section
is dropped entirely: its id occurs zero times in the output, not exactly
once as the claim states. -/
theorem c1_counterexample :
    "f1" ∈ [(⟨"f1", "field", 100, 60, 20, 10, 9/10, 0, "", "", "Name"⟩ :
      Detection)].map Detection.detection_id ∧
    List.count "f1" (hierarchyIds (build_hierarchy
      [⟨"f1", "field", 100, 60, 20, 10, 9/10, 0, "", "", "Name"⟩])) = 0 := by
  with_unfolding_all decide

/-- C5: on an input with two detections sharing one detection id the
builder does not fail: the elements map silently keeps the later
detection, and the returned structure carries the second detection's
geometry, confidence and text while the first is discarded without any
validation error (the code has no raising path at all). -/
theorem c5_duplicate_id_overwrite :
    build_hierarchy
      [⟨"s1", "section", 100, 50, 200, 100, 9/10, 0, "", "", "first"⟩,
        ⟨"s1", "section", 300, 400, 50, 40, 8/10, 0, "", "", "second"⟩] =
    [("s1", ⟨50, 40, 300, 400, 8/10, 0, "section", "s1", "", "", "second",
      [], [], []⟩)] := by
  with_unfolding_all decide

end HierarchyTheorems

section TableParserTheorems

lemma fieldAt_of_mem_enum {fields : List TField} {p : Nat × TField}
    (hp : p ∈ fields.enum) : fieldAt fields p.1 = p.2 ∧ p.2 ∈ fields := by
  have hg : fields[p.1]? = some p.2 := List.mem_enum_iff_getElem?.mp hp
  constructor
  · unfold fieldAt
    rw [List.getD_eq_getElem?_getD, hg]
    rfl
  · exact List.getElem?_mem hg

lemma addToRows_mem_indices (y : ℚ) (i : Nat) :
    ∀ (rows : List (ℚ × List Nat)), ∀ r ∈ addToRows y i rows, ∀ j ∈ r.2,
      (∃ r0 ∈ rows, j ∈ r0.2) ∨ j = i := by
  intro rows
  induction rows with
  | nil =>
    intro r hr j hj
    unfold addToRows at hr
    rcases List.mem_singleton.mp hr with rfl
    rcases List.mem_singleton.mp hj with rfl
    exact Or.inr rfl
  | cons hd tl ih =>
    intro r hr j hj
    unfold addToRows at hr
    rcases hd with ⟨ry, is⟩
    split_ifs at hr with hcl
    · rcases List.mem_cons.mp hr with rfl | hmem
      · rcases List.mem_append.mp hj with hj1 | hj2
        · exact Or.inl ⟨(ry, is), List.mem_cons_self _ _, hj1⟩
        · exact Or.inr (List.mem_singleton.mp hj2)
      · exact Or.inl ⟨r, List.mem_cons_of_mem _ hmem, hj⟩
    · rcases List.mem_cons.mp hr with rfl | hmem
      · exact Or.inl ⟨(ry, is), List.mem_cons_self _ _, hj⟩
      · rcases ih r hmem j hj with ⟨r0, hr0, hj0⟩ | hji
        · exact Or.inl ⟨r0, List.mem_cons_of_mem _ hr0, hj0⟩
        · exact Or.inr hji

lemma singleRows_indices (fields : List TField) :
    ∀ r ∈ singleRows fields, ∀ j ∈ r.2,
      fieldAt fields j ∈ fields ∧ (fieldAt fields j).type = "field" := by
  unfold singleRows
  suffices hgen : ∀ (ps : List (Nat × TField)) (rows0 : List (ℚ × List Nat)),
      (∀ p ∈ ps, fieldAt fields p.1 ∈ fields ∧ (fieldAt fields p.1).type = "field") →
      (∀ r ∈ rows0, ∀ j ∈ r.2,
        fieldAt fields j ∈ fields ∧ (fieldAt fields j).type = "field") →
      ∀ r ∈ ps.foldl (fun rows p => addToRows (p.2.box.getD 1 0) p.1 rows) rows0,
        ∀ j ∈ r.2, fieldAt fields j ∈ fields ∧ (fieldAt fields j).type = "field" by
    apply hgen
    · intro p hp
      have hf := List.mem_filter.mp hp
      have hm := fieldAt_of_mem_enum hf.1
      have hcond := hf.2
      rw [Bool.and_eq_true] at hcond
      have htype : p.2.type = "field" := by
        have := hcond.1
        simpa using this
      rw [hm.1]
      exact ⟨hm.2, htype⟩
    · intro r hr; cases hr
  intro ps
  induction ps with
  | nil => intro rows0 _ h0; exact h0
  | cons p ps ih =>
    intro rows0 hps h0
    rw [List.foldl_cons]
    apply ih
    · intro q hq; exact hps q (List.mem_cons_of_mem _ hq)
    · intro r hr j hj
      rcases addToRows_mem_indices _ _ rows0 r hr j hj with ⟨r0, hr0, hj0⟩ | rfl
      · exact h0 r0 hr0 j hj0
      · exact hps p (List.mem_cons_self _ _)

lemma insertRow_mem {r s : ℚ × List Nat} :
    ∀ {l : List (ℚ × List Nat)}, s ∈ insertRow r l → s = r ∨ s ∈ l := by
  intro l
  induction l with
  | nil =>
    intro hs
    unfold insertRow at hs
    exact Or.inl (List.mem_singleton.mp hs)
  | cons hd tl ih =>
    intro hs
    unfold insertRow at hs
    split_ifs at hs with hle
    · rcases List.mem_cons.mp hs with rfl | hmem
      · exact Or.inl rfl
      · exact Or.inr hmem
    · rcases List.mem_cons.mp hs with rfl | hmem
      · exact Or.inr (List.mem_cons_self _ _)
      · rcases ih hmem with h1 | h2
        · exact Or.inl h1
        · exact Or.inr (List.mem_cons_of_mem _ h2)

lemma sortRows_mem {s : ℚ × List Nat} :
    ∀ {l : List (ℚ × List Nat)}, s ∈ sortRows l → s ∈ l := by
  intro l
  induction l with
  | nil => intro hs; exact absurd hs (by simp [sortRows])
  | cons hd tl ih =>
    intro hs
    unfold sortRows at hs
    rcases insertRow_mem hs with rfl | hmem
    · exact List.mem_cons_self _ _
    · exact List.mem_cons_of_mem _ (ih hmem)

lemma findHeaderRow_eq_none (fields : List TField) (rows : List (ℚ × List Nat))
    (hc : ∀ r ∈ rows, rowTextCount fields r.2 = 0) :
    findHeaderRow fields rows = none := by
  unfold findHeaderRow
  have h1 : rows.find? (fun r => !(rowHasTitle fields r.2) &&
      rowTextCount fields r.2 > 1) = none :=
    List.find?_eq_none.mpr (fun r hr => by simp [hc r hr])
  rw [h1]
  exact List.find?_eq_none.mpr (fun r hr => by simp [hc r hr])

lemma applyAssignments_nil (fields : List TField) :
    applyAssignments fields [] = fields := by
  unfold applyAssignments
  simp [List.enum_map_snd]

lemma is_double_axis_of_all_empty (fields : List TField)
    (hall : ∀ f ∈ fields, f.type = "field" → f.text = "") :
    is_double_axis_table fields = false := by
  unfold is_double_axis_table
  have hfil : fields.filter (fun f => f.type == "field" && f.text != "" &&
      decide (4 ≤ f.box.length) && decide (f.box.getD 0 0 < 200)) = [] := by
    apply List.filter_eq_nil_iff.mpr
    intro f hf
    by_cases ht : f.type = "field"
    · have htext := hall f hf ht
      simp [htext]
    · simp [ht]
  rw [hfil]
  simp

/-- C8: a table in which no type-field entry carries non-empty text has no
header row, so context synthesis is skipped: the per-table parse returns
normally (no exception) with the table exactly as it was, every empty
field included.  The double-axis test also fails on such a table, so the
single-axis path with its early return is the one taken. -/
theorem c8_no_header_no_op (t : TTable)
    (hall : ∀ f ∈ t.fields, f.type = "field" → f.text = "") :
    parseTable t = some t := by
  have hdouble := is_double_axis_of_all_empty t.fields hall
  have hrows : ∀ r ∈ sortRows (singleRows t.fields),
      rowTextCount t.fields r.2 = 0 := by
    intro r hr
    have hr0 := sortRows_mem hr
    unfold rowTextCount
    rw [List.length_eq_zero]
    apply List.filter_eq_nil_iff.mpr
    intro j hj
    have hjO := singleRows_indices t.fields r hr0 j hj
    have htext := hall _ hjO.1 hjO.2
    simp [htext]
  have hhdr := findHeaderRow_eq_none t.fields _ hrows
  unfold parseTable
  rw [hdouble]
  simp only [Bool.false_eq_true, if_false]
  unfold parseSingleAxisTable singleAxisAssignments
  rw [hhdr, applyAssignments_nil]

theorem c8_no_header_no_op_witness :
    (∀ f ∈ (⟨[100, 20, 600, 40], 9/10, "sec1",
        [⟨"ttl", "title", "My Table", [10, 2, 30, 6], 9/10, none⟩,
         ⟨"e1", "field", "", [10, 30, 30, 10], 9/10, none⟩]⟩ : TTable).fields,
      f.type = "field" → f.text = "") ∧
    parseTable (⟨[100, 20, 600, 40], 9/10, "sec1",
        [⟨"ttl", "title", "My Table", [10, 2, 30, 6], 9/10, none⟩,
         ⟨"e1", "field", "", [10, 30, 30, 10], 9/10, none⟩]⟩ : TTable) =
      some ⟨[100, 20, 600, 40], 9/10, "sec1",
        [⟨"ttl", "title", "My Table", [10, 2, 30, 6], 9/10, none⟩,
         ⟨"e1", "field", "", [10, 30, 30, 10], 9/10, none⟩]⟩ :=
  ⟨by with_unfolding_all decide,
    c8_no_header_no_op _ (by with_unfolding_all decide)⟩

lemma fieldAt_eq_get (fields : List TField) (i : Nat) (h : i < fields.length) :
    fieldAt fields i = fields.get ⟨i, h⟩ := by
  unfold fieldAt
  rw [List.getD_eq_getElem?_getD, List.getElem?_eq_getElem h]
  rfl

lemma applyAssignments_length (fields : List TField) (asg : List (Nat × String)) :
    (applyAssignments fields asg).length = fields.length := by
  unfold applyAssignments
  simp

lemma applyAssignments_spec (fields : List TField) (asg : List (Nat × String))
    (hasg : ∀ p ∈ asg, (fieldAt fields p.1).text = "") :
    List.Forall₂ fieldUpdatedOnlyContext fields (applyAssignments fields asg) := by
  apply List.forall₂_of_length_eq_of_get
  · rw [applyAssignments_length]
  · intro i h1 h2
    have hget : (applyAssignments fields asg).get ⟨i, h2⟩ =
        match (asg.filter (fun a => a.1 == i)).getLast? with
        | some a => { fields.get ⟨i, h1⟩ with context := some a.2 }
        | none => fields.get ⟨i, h1⟩ := by
      unfold applyAssignments
      simp [List.get_eq_getElem, List.getElem_map, List.getElem_enum]
    rw [hget]
    cases hlast : (asg.filter (fun a => a.1 == i)).getLast? with
    | none =>
      exact ⟨rfl, rfl, rfl, rfl, rfl, fun hc => absurd rfl hc⟩
    | some a =>
      have hmem := List.mem_of_mem_getLast? hlast
      have hfil := List.mem_filter.mp hmem
      have hai : a.1 = i := by simpa using hfil.2
      have htext : (fieldAt fields a.1).text = "" := hasg a hfil.1
      rw [hai, fieldAt_eq_get fields i h1] at htext
      exact ⟨rfl, rfl, rfl, rfl, rfl, fun _ => ⟨htext, a.2, rfl⟩⟩

lemma singleRowAssign_empty (fields : List TField) (headers : List (ℚ × String))
    (rid : Option String) (idx : Nat) (is : List Nat) :
    ∀ p ∈ singleRowAssign fields headers rid idx is,
      (fieldAt fields p.1).text = "" := by
  intro p hp
  unfold singleRowAssign at hp
  obtain ⟨i, hi, hf⟩ := List.mem_filterMap.mp hp
  split_ifs at hf with hc
  have hp2 := Option.some.inj hf
  rw [← hp2]
  rw [Bool.and_eq_true] at hc
  simpa using hc.1

lemma singleAxisAssignments_empty (fields : List TField) :
    ∀ p ∈ singleAxisAssignments fields, (fieldAt fields p.1).text = "" := by
  intro p hp
  unfold singleAxisAssignments at hp
  revert hp
  cases hfind : findHeaderRow fields (sortRows (singleRows fields)) with
  | none => intro hp; exact absurd hp (List.not_mem_nil p)
  | some hr =>
    intro hp
    obtain ⟨q, hq, hin⟩ := List.mem_flatMap.mp hp
    split_ifs at hin with hc
    · exact absurd hin (List.not_mem_nil p)
    · exact singleRowAssign_empty _ _ _ _ _ p hin

lemma doubleRowAssign_empty (fields : List TField) (headers : List (ℚ × String))
    (rhv : String) :
    ∀ (is : List Nat) (l : List (Nat × String)),
      doubleRowAssign fields headers rhv is = some l →
      ∀ p ∈ l, (fieldAt fields p.1).text = "" := by
  intro is
  induction is with
  | nil =>
    intro l h p hp
    unfold doubleRowAssign at h
    rw [← Option.some.inj h] at hp
    exact absurd hp (List.not_mem_nil p)
  | cons i rest ih =>
    intro l h p hp
    unfold doubleRowAssign at h
    split_ifs at h with hc
    · revert h
      cases hck : closestKey headers ((fieldAt fields i).box.getD 0 0) with
      | none => intro h; exact absurd h (by simp)
      | some cx =>
        intro h
        obtain ⟨l2, hl2, hl⟩ := Option.map_eq_some'.mp h
        rw [← hl] at hp
        rcases List.mem_cons.mp hp with rfl | hmem
        · rw [Bool.and_eq_true] at hc
          simpa using hc.1
        · exact ih l2 hl2 p hmem
    · exact ih l h p hp

lemma doubleAssignRows_empty (fields : List TField) (headers : List (ℚ × String))
    (rh : List (ℚ × String)) (hy : ℚ) :
    ∀ (rows : List (ℚ × List Nat)) (l : List (Nat × String)),
      doubleAssignRows fields headers rh hy rows = some l →
      ∀ p ∈ l, (fieldAt fields p.1).text = "" := by
  intro rows
  induction rows with
  | nil =>
    intro l h p hp
    unfold doubleAssignRows at h
    rw [← Option.some.inj h] at hp
    exact absurd hp (List.not_mem_nil p)
  | cons r rest ih =>
    intro l h p hp
    unfold doubleAssignRows at h
    split_ifs at h with h1
    · exact ih l h p hp
    · revert h
      cases hlk : assocLookup rh r.1 with
      | none => intro h; exact ih l h p hp
      | some rhv =>
        intro h
        dsimp only at h
        split_ifs at h with h2
        · exact ih l h p hp
        · revert h
          cases hra : doubleRowAssign fields headers rhv r.2 with
          | none => intro h; exact absurd h (by simp)
          | some l1 =>
            cases hrr : doubleAssignRows fields headers rh hy rest with
            | none => intro h; exact absurd h (by simp)
            | some l2 =>
              intro h
              rw [← Option.some.inj h] at hp
              rcases List.mem_append.mp hp with hm1 | hm2
              · exact doubleRowAssign_empty fields headers rhv r.2 l1 hra p hm1
              · exact ih l2 hrr p hm2

lemma doubleAxisAssignments_empty (fields : List TField)
    (asg : List (Nat × String)) (h : doubleAxisAssignments fields = some asg) :
    ∀ p ∈ asg, (fieldAt fields p.1).text = "" := by
  unfold doubleAxisAssignments at h
  revert h
  cases hfind : doubleFindHeader fields (sortRows (doubleRows fields)) with
  | none =>
    intro h p hp
    rw [← Option.some.inj h] at hp
    exact absurd hp (List.not_mem_nil p)
  | some hr =>
    intro h
    exact doubleAssignRows_empty fields _ _ _ _ asg h

lemma parseTable_spec (t t2 : TTable) (h : parseTable t = some t2) :
    t2.box = t.box ∧ t2.confidence = t.confidence ∧
    t2.parent_id = t.parent_id ∧
    List.Forall₂ fieldUpdatedOnlyContext t.fields t2.fields := by
  unfold parseTable at h
  split_ifs at h with hd
  · unfold parseDoubleAxisTable at h
    obtain ⟨asg, hasg, ht2⟩ := Option.map_eq_some'.mp h
    rw [← ht2]
    exact ⟨rfl, rfl, rfl,
      applyAssignments_spec t.fields asg (doubleAxisAssignments_empty t.fields asg hasg)⟩
  · rw [← Option.some.inj h]
    unfold parseSingleAxisTable
    exact ⟨rfl, rfl, rfl,
      applyAssignments_spec t.fields _ (singleAxisAssignments_empty t.fields)⟩

/-- C6 (amended): the processed-tables output of the table parser has the
same shape as the extracted-tables input - same keys in the same order,
same table metadata, same fields pointwise with identical id, type, text,
box and confidence - and the only change is the context value of some
fields: a field whose context changed had empty text on input and now
carries a present context string.  No field text is ever replaced. -/
theorem c6_parse_updates_only_context (data out : List (String × TTable))
    (h : parse_tables data = some out) :
    List.Forall₂ tableUpdatedOnlyContext data out := by
  induction data generalizing out with
  | nil =>
    unfold parse_tables at h
    rw [← Option.some.inj h]
    exact List.Forall₂.nil
  | cons p rest ih =>
    unfold parse_tables at h
    revert h
    cases hpt : parseTable p.2 with
    | none => intro h; exact absurd h (by simp)
    | some t2 =>
      cases hpr : parse_tables rest with
      | none => intro h; exact absurd h (by simp)
      | some r =>
        intro h
        rw [← Option.some.inj h]
        exact List.Forall₂.cons
          ⟨rfl, (parseTable_spec p.2 t2 hpt).1, (parseTable_spec p.2 t2 hpt).2.1,
            (parseTable_spec p.2 t2 hpt).2.2.1, (parseTable_spec p.2 t2 hpt).2.2.2⟩
          (ih r hpr)

set_option maxRecDepth 10000 in
theorem c6_parse_updates_only_context_witness :
    parse_tables [("t1", (⟨[0, 0, 10, 10], 1, "p", []⟩ : TTable))] =
      some [("t1", ⟨[0, 0, 10, 10], 1, "p", []⟩)] ∧
    List.Forall₂ tableUpdatedOnlyContext
      [("t1", (⟨[0, 0, 10, 10], 1, "p", []⟩ : TTable))]
      [("t1", ⟨[0, 0, 10, 10], 1, "p", []⟩)] :=
  ⟨by with_unfolding_all rfl,
    c6_parse_updates_only_context _ _ (by with_unfolding_all rfl)⟩

set_option maxRecDepth 100000 in
/-- C6 (counterexample): a concrete table with one empty field, parsed as
single-axis: the output still has empty text for that field - the parser
adds a context key instead of replacing the text, so the claim that every
empty text is replaced in the output is false. -/
theorem c6_counterexample :
    parse_tables [("t1", c7NoLabel "State")] =
      some [("t1", c7NoLabelOut "State")] ∧
    ((c7NoLabel "State").fields.getD 3 default).text = "" ∧
    ((c7NoLabelOut "State").fields.getD 3 default).text = "" ∧
    ((c7NoLabelOut "State").fields.getD 3 default).context =
      some "Row 1 - State" := by
  with_unfolding_all decide

set_option maxRecDepth 100000 in
/-- C7 (counterexample): Scenario C of the spec - a header row State,
Number, Expiration and a data row with an empty cell under State and no
row label: the synthesized context is Row 1 - State, not the State1 the
claim states (the code always uses the Row-index - header template, never
header followed by row index). -/
theorem c7_counterexample :
    parse_tables [("t1", c7NoLabel "State")] =
      some [("t1", c7NoLabelOut "State")] ∧
    ((c7NoLabelOut "State").fields.getD 3 default).context =
      some "Row 1 - State" ∧
    some "Row 1 - State" ≠ some "State1" := by
  with_unfolding_all decide

set_option maxRecDepth 100000 in
/-- C7 (amended): for a SingleHeader table, the context synthesized for an
empty field in a data row is Row followed by the row index in the sorted
row list (the header row counts as index 0), a dash, and the nearest
column header - not the header concatenated with the row index; when a
distinct row label exists the context is the label, a dash, and the
header, as the claim states.  Proved for the parametric Scenario C family
with an arbitrary non-empty header text and row label. -/
theorem c7_single_header_context (h rl : String) (hh : h ≠ "") (hrl : rl ≠ "") :
    parse_tables [("t1", c7NoLabel h)] = some [("t1", c7NoLabelOut h)] ∧
    parse_tables [("t2", c7Label h rl)] = some [("t2", c7LabelOut h rl)] := by
  have hbt : (h != "") = true := bne_iff_ne.mpr hh
  have hrt : (rl != "") = true := bne_iff_ne.mpr hrl
  have hrf : (rl == "") = false := beq_eq_false_iff_ne.mpr hrl
  have hf0 : fieldAt (c7NoLabel h).fields 0 =
      ⟨"h1", "field", h, [210, 10, 30, 10], 9/10, none⟩ := by with_unfolding_all rfl
  have hf1 : fieldAt (c7NoLabel h).fields 1 =
      ⟨"h2", "field", "Number", [400, 10, 30, 10], 9/10, none⟩ := by with_unfolding_all rfl
  have hf2 : fieldAt (c7NoLabel h).fields 2 =
      ⟨"h3", "field", "Expiration", [600, 10, 40, 10], 9/10, none⟩ := by with_unfolding_all rfl
  have hf3 : fieldAt (c7NoLabel h).fields 3 =
      ⟨"e1", "field", "", [212, 30, 30, 10], 9/10, none⟩ := by with_unfolding_all rfl
  have hA1 : sortRows (singleRows (c7NoLabel h).fields) = [(10, [0, 1, 2]), (30, [3])] := by
    with_unfolding_all rfl
  have hA2a : rowHasTitle (c7NoLabel h).fields [0, 1, 2] = false := by with_unfolding_all rfl
  have hA2b : rowTextCount (c7NoLabel h).fields [0, 1, 2] = 3 := by
    unfold rowTextCount
    simp [hf0, hf1, hf2, hbt]
  have hA2 : findHeaderRow (c7NoLabel h).fields [(10, [0, 1, 2]), (30, [3])] =
      some (10, [0, 1, 2]) := by
    unfold findHeaderRow
    simp [List.find?, hA2a, hA2b]
  have hnum : ¬ ("Number" : String) = "" := by decide
  have hexp : ¬ ("Expiration" : String) = "" := by decide
  have hA3 : columnHeaders (c7NoLabel h).fields [0, 1, 2] =
      [(210, h), (400, "Number"), (600, "Expiration")] := by
    unfold columnHeaders
    norm_num [hf0, hf1, hf2, hbt, hh, hnum, hexp, dictInsert]
  have hA4 : rowIdentifier (c7NoLabel h).fields [3] = none := by with_unfolding_all rfl
  have hA5 : closestHeader [(210, h), (400, "Number"), (600, "Expiration")] 212 = some h := by
    with_unfolding_all rfl
  have hs2 : ("Row " ++ toString (1 : Nat) ++ " - " ++ h) = "Row 1 - " ++ h := by
    have : ("Row " ++ toString (1 : Nat) ++ " - ") = "Row 1 - " := by with_unfolding_all rfl
    rw [← this]
  have hA6 : singleRowAssign (c7NoLabel h).fields
      [(210, h), (400, "Number"), (600, "Expiration")] none 1 [3] =
      [(3, "Row 1 - " ++ h)] := by
    unfold singleRowAssign
    simp [hf3, hA5, singleContext, pyTruthy, hbt, hs2]
  have hA : singleAxisAssignments (c7NoLabel h).fields = [(3, "Row 1 - " ++ h)] := by
    unfold singleAxisAssignments
    rw [hA1, hA2]
    norm_num [List.enum, List.enumFrom, List.flatMap_cons, hA3, hA4, hA6]
  have hB : applyAssignments (c7NoLabel h).fields [(3, "Row 1 - " ++ h)] =
      (c7NoLabelOut h).fields := by with_unfolding_all rfl
  have hC : is_double_axis_table (c7NoLabel h).fields = false := by
    unfold is_double_axis_table
    norm_num [c7NoLabel, hbt]
  have hD : parseSingleAxisTable (c7NoLabel h) = c7NoLabelOut h := by
    unfold parseSingleAxisTable
    rw [hA, hB]
    with_unfolding_all rfl
  have hPT1 : parseTable (c7NoLabel h) = some (c7NoLabelOut h) := by
    unfold parseTable
    rw [hC, hD]
    simp
  -- labelled variant
  have hg0 : fieldAt (c7Label h rl).fields 0 =
      ⟨"h1", "field", h, [210, 10, 30, 10], 9/10, none⟩ := by with_unfolding_all rfl
  have hg1 : fieldAt (c7Label h rl).fields 1 =
      ⟨"h2", "field", "Number", [400, 10, 30, 10], 9/10, none⟩ := by with_unfolding_all rfl
  have hg2 : fieldAt (c7Label h rl).fields 2 =
      ⟨"h3", "field", "Expiration", [600, 10, 40, 10], 9/10, none⟩ := by with_unfolding_all rfl
  have hg3 : fieldAt (c7Label h rl).fields 3 =
      ⟨"e1", "field", "", [212, 30, 30, 10], 9/10, none⟩ := by with_unfolding_all rfl
  have hg4 : fieldAt (c7Label h rl).fields 4 =
      ⟨"r1", "field", rl, [5, 30, 20, 10], 9/10, none⟩ := by with_unfolding_all rfl
  have hL1 : sortRows (singleRows (c7Label h rl).fields) =
      [(10, [0, 1, 2]), (30, [3, 4])] := by with_unfolding_all rfl
  have hL2a : rowHasTitle (c7Label h rl).fields [0, 1, 2] = false := by
    with_unfolding_all rfl
  have hL2b : rowTextCount (c7Label h rl).fields [0, 1, 2] = 3 := by
    unfold rowTextCount
    simp [hg0, hg1, hg2, hbt]
  have hL2 : findHeaderRow (c7Label h rl).fields [(10, [0, 1, 2]), (30, [3, 4])] =
      some (10, [0, 1, 2]) := by
    unfold findHeaderRow
    simp [List.find?, hL2a, hL2b]
  have hL3 : columnHeaders (c7Label h rl).fields [0, 1, 2] =
      [(210, h), (400, "Number"), (600, "Expiration")] := by
    unfold columnHeaders
    norm_num [hg0, hg1, hg2, hbt, hh, hnum, hexp, dictInsert]
  have hL4 : rowIdentifier (c7Label h rl).fields [3, 4] = some rl := by
    unfold rowIdentifier
    norm_num [hg3, hg4, hrt, hrl]
  have hL6 : singleRowAssign (c7Label h rl).fields
      [(210, h), (400, "Number"), (600, "Expiration")] (some rl) 1 [3, 4] =
      [(3, rl ++ " - " ++ h)] := by
    unfold singleRowAssign
    simp [hg3, hg4, hA5, singleContext, pyTruthy, hbt, hrt, hrf, hrl]
  have hL : singleAxisAssignments (c7Label h rl).fields = [(3, rl ++ " - " ++ h)] := by
    unfold singleAxisAssignments
    rw [hL1, hL2]
    norm_num [List.enum, List.enumFrom, List.flatMap_cons, hL3, hL4, hL6, hrl]
  have hLB : applyAssignments (c7Label h rl).fields [(3, rl ++ " - " ++ h)] =
      (c7LabelOut h rl).fields := by with_unfolding_all rfl
  have hLC : is_double_axis_table (c7Label h rl).fields = false := by
    unfold is_double_axis_table
    norm_num [c7Label, hbt, hrt, hh, hrl, hnum, hexp]
  have hLD : parseSingleAxisTable (c7Label h rl) = c7LabelOut h rl := by
    unfold parseSingleAxisTable
    rw [hL, hLB]
    with_unfolding_all rfl
  have hPT2 : parseTable (c7Label h rl) = some (c7LabelOut h rl) := by
    unfold parseTable
    rw [hLC, hLD]
    simp
  constructor
  · unfold parse_tables
    rw [hPT1]
    with_unfolding_all rfl
  · unfold parse_tables
    rw [hPT2]
    with_unfolding_all rfl

theorem c7_single_header_context_witness :
    (("State" : String) ≠ "" ∧ ("Alabama" : String) ≠ "") ∧
    (parse_tables [("t1", c7NoLabel "State")] =
        some [("t1", c7NoLabelOut "State")] ∧
      parse_tables [("t2", c7Label "State" "Alabama")] =
        some [("t2", c7LabelOut "State" "Alabama")]) :=
  ⟨⟨by with_unfolding_all decide, by with_unfolding_all decide⟩,
    c7_single_header_context "State" "Alabama"
      (by with_unfolding_all decide) (by with_unfolding_all decide)⟩

end TableParserTheorems

section MergeTheorems

lemma allocNode_mem_ne (σ : Store) (n : PNode) (x : Nat) (hx : x ≠ σ.next) :
    ((allocNode σ n).1).mem x = σ.mem x := by
  simp [allocNode, hx]

lemma allocNode_mem_self (σ : Store) (n : PNode) :
    ((allocNode σ n).1).mem σ.next = n := by
  simp [allocNode]

lemma allocNode_next (σ : Store) (n : PNode) :
    ((allocNode σ n).1).next = σ.next + 1 := rfl

lemma allocNode_addr (σ : Store) (n : PNode) : (allocNode σ n).2 = σ.next := rfl

lemma writeChildren_mem_ne (σ : Store) (a : Nat) (cs : List Nat) (x : Nat)
    (hx : x ≠ a) : ((writeChildren σ a cs).mem x) = σ.mem x := by
  simp [writeChildren, hx]

lemma writeChildren_mem_self (σ : Store) (a : Nat) (cs : List Nat) :
    ((writeChildren σ a cs).mem a) = { σ.mem a with children := some cs } := by
  simp [writeChildren]

lemma writeChildren_next (σ : Store) (a : Nat) (cs : List Nat) :
    (writeChildren σ a cs).next = σ.next := rfl

lemma writeMetadata_mem_ne (σ : Store) (a : Nat) (m : String) (x : Nat)
    (hx : x ≠ a) : ((writeMetadata σ a m).mem x) = σ.mem x := by
  simp [writeMetadata, hx]

lemma writeMetadata_mem_self (σ : Store) (a : Nat) (m : String) :
    ((writeMetadata σ a m).mem a) = { σ.mem a with metadata := some m } := by
  simp [writeMetadata]

lemma writeMetadata_next (σ : Store) (a : Nat) (m : String) :
    (writeMetadata σ a m).next = σ.next := rfl

lemma deepcopy_spec : ∀ (fuel : Nat) (σ : Store) (a : Nat),
    σ.next ≤ ((deepcopy fuel σ a).1).next ∧
    (σ.next ≤ (deepcopy fuel σ a).2 ∧
      (deepcopy fuel σ a).2 < ((deepcopy fuel σ a).1).next) ∧
    (∀ x, x < σ.next → ((deepcopy fuel σ a).1).mem x = σ.mem x) ∧
    (∀ x, σ.next ≤ x → x < ((deepcopy fuel σ a).1).next →
      ∀ cs, (((deepcopy fuel σ a).1).mem x).children = some cs →
        ∀ b ∈ cs, σ.next ≤ b ∧ b < ((deepcopy fuel σ a).1).next) := by
  intro fuel
  induction fuel with
  | zero =>
    intro σ a
    refine ⟨by simp [deepcopy, allocNode_next],
      ⟨le_refl _, Nat.lt_succ_self σ.next⟩, ?_, ?_⟩
    · intro x hx
      exact allocNode_mem_ne σ _ x (Nat.ne_of_lt hx)
    · intro x hx1 hx2 cs hcs b hb
      exfalso
      have hx : x = σ.next := by
        have := allocNode_next σ { σ.mem a with children := none }
        unfold deepcopy at hx2
        rw [this] at hx2
        omega
      rw [hx] at hcs
      unfold deepcopy at hcs
      rw [allocNode_mem_self] at hcs
      simp at hcs
  | succ fuel ih =>
    intro σ a
    show _ ∧ _ ∧ _ ∧ _
    unfold deepcopy
    cases hch : (σ.mem a).children with
    | none =>
      refine ⟨by simp [allocNode_next],
        ⟨le_refl _, Nat.lt_succ_self σ.next⟩, ?_, ?_⟩
      · intro x hx
        exact allocNode_mem_ne σ _ x (Nat.ne_of_lt hx)
      · intro x hx1 hx2 cs hcs b hb
        exfalso
        rw [allocNode_next] at hx2
        have hx : x = σ.next := by omega
        rw [hx, allocNode_mem_self] at hcs
        rw [hch] at hcs
        simp at hcs
    | some cs0 =>
      dsimp only
      -- spec of the copy fold
      have hfold : ∀ (cs : List Nat) (σ1 : Store) (acc : List Nat),
          σ.next ≤ σ1.next →
          (∀ b ∈ acc, σ.next ≤ b ∧ b < σ1.next) →
          (∀ x, σ.next ≤ x → x < σ1.next →
            ∀ cs2, ((σ1.mem x).children = some cs2) →
              ∀ b ∈ cs2, σ.next ≤ b ∧ b < σ1.next) →
          σ1.next ≤ (cs.foldl (fun (st : Store × List Nat) c =>
              ((deepcopy fuel st.1 c).1, st.2 ++ [(deepcopy fuel st.1 c).2])) (σ1, acc)).1.next ∧
          (∀ x, x < σ1.next → ((cs.foldl (fun (st : Store × List Nat) c =>
              ((deepcopy fuel st.1 c).1, st.2 ++ [(deepcopy fuel st.1 c).2])) (σ1, acc)).1.mem x) = σ1.mem x) ∧
          (∀ b ∈ (cs.foldl (fun (st : Store × List Nat) c =>
              ((deepcopy fuel st.1 c).1, st.2 ++ [(deepcopy fuel st.1 c).2])) (σ1, acc)).2,
            σ.next ≤ b ∧ b < (cs.foldl (fun (st : Store × List Nat) c =>
              ((deepcopy fuel st.1 c).1, st.2 ++ [(deepcopy fuel st.1 c).2])) (σ1, acc)).1.next) ∧
          (∀ x, σ.next ≤ x → x < (cs.foldl (fun (st : Store × List Nat) c =>
              ((deepcopy fuel st.1 c).1, st.2 ++ [(deepcopy fuel st.1 c).2])) (σ1, acc)).1.next →
            ∀ cs2, (((cs.foldl (fun (st : Store × List Nat) c =>
              ((deepcopy fuel st.1 c).1, st.2 ++ [(deepcopy fuel st.1 c).2])) (σ1, acc)).1.mem x).children = some cs2) →
              ∀ b ∈ cs2, σ.next ≤ b ∧ b < (cs.foldl (fun (st : Store × List Nat) c =>
              ((deepcopy fuel st.1 c).1, st.2 ++ [(deepcopy fuel st.1 c).2])) (σ1, acc)).1.next) := by
        intro cs
        induction cs with
        | nil =>
          intro σ1 acc h1 h2 h3
          exact ⟨le_refl _, fun x _ => rfl, h2, h3⟩
        | cons c rest ihc =>
          intro σ1 acc h1 h2 h3
          rw [List.foldl_cons]
          obtain ⟨d1, ⟨d2a, d2b⟩, d3, d4⟩ := ih σ1 c
          obtain ⟨e1, e2, e3, e4⟩ := ihc ((deepcopy fuel σ1 c).1)
            (acc ++ [(deepcopy fuel σ1 c).2])
            (le_trans h1 d1)
            (by
              intro b hb
              rcases List.mem_append.mp hb with hb1 | hb2
              · have hh := h2 b hb1
                exact ⟨hh.1, lt_of_lt_of_le hh.2 d1⟩
              · rcases List.mem_singleton.mp hb2 with rfl
                exact ⟨le_trans h1 d2a, d2b⟩)
            (by
              intro x hx1 hx2 cs2 hcs2 b hb
              by_cases hx : x < σ1.next
              · rw [d3 x hx] at hcs2
                have hh := h3 x hx1 hx cs2 hcs2 b hb
                exact ⟨hh.1, lt_of_lt_of_le hh.2 d1⟩
              · push_neg at hx
                have hh := d4 x hx hx2 cs2 hcs2 b hb
                exact ⟨le_trans h1 hh.1, hh.2⟩)
          refine ⟨le_trans d1 e1, ?_, e3, e4⟩
          intro x hx
          rw [e2 x (lt_of_lt_of_le hx d1), d3 x hx]
      obtain ⟨f1, f2, f3, f4⟩ := hfold cs0 σ [] (le_refl _) (by simp)
        (fun x hx1 hx2 => absurd (lt_of_le_of_lt hx1 hx2) (lt_irrefl _))
      constructor
      · rw [allocNode_next]
        omega
      constructor
      · constructor
        · rw [allocNode_addr]
          exact f1
        · rw [allocNode_addr, allocNode_next]
          omega
      constructor
      · intro x hx
        rw [allocNode_mem_ne _ _ x (by omega)]
        exact f2 x hx
      · intro x hx1 hx2 cs2 hcs2 b hb
        rw [allocNode_next] at hx2
        by_cases hxe : x = (cs0.foldl (fun (st : Store × List Nat) c =>
            ((deepcopy fuel st.1 c).1, st.2 ++ [(deepcopy fuel st.1 c).2])) (σ, [])).1.next
        · rw [hxe, allocNode_mem_self] at hcs2
          have hcs2e : cs2 = (cs0.foldl (fun (st : Store × List Nat) c =>
              ((deepcopy fuel st.1 c).1, st.2 ++ [(deepcopy fuel st.1 c).2])) (σ, [])).2 := by
            have hq := hcs2
            simp at hq
            exact hq.symm
          rw [hcs2e] at hb
          have hf := f3 b hb
          refine ⟨hf.1, ?_⟩
          rw [allocNode_next]
          have := hf.2
          omega
        · have hxlt : x < (cs0.foldl (fun (st : Store × List Nat) c =>
              ((deepcopy fuel st.1 c).1, st.2 ++ [(deepcopy fuel st.1 c).2])) (σ, [])).1.next := by
            omega
          rw [allocNode_mem_ne _ _ x hxe] at hcs2
          have hf := f4 x hx1 hxlt cs2 hcs2 b hb
          refine ⟨hf.1, ?_⟩
          rw [allocNode_next]
          have := hf.2
          omega

lemma Allowed_mono (σ0 : Store) (tm : List (String × PTable)) {σ σ2 : Store}
    (h : σ.next ≤ σ2.next) {x : Nat} (hx : Allowed σ0 tm σ x) :
    Allowed σ0 tm σ2 x := by
  rcases hx with ⟨h1, h2⟩ | hp
  · exact Or.inl ⟨h1, lt_of_lt_of_le h2 h⟩
  · exact Or.inr hp

lemma tmLookup_mem {tm : List (String × PTable)} {tid : String} {pt : PTable}
    (h : tmLookup tm tid = some pt) : (tid, pt) ∈ tm := by
  unfold tmLookup at h
  obtain ⟨p, hp, hpe⟩ := Option.map_eq_some'.mp h
  have hmem := List.mem_of_find?_eq_some hp
  have hpred := List.find?_some hp
  have ht : p.1 = tid := by simpa using hpred
  have : p = (tid, pt) := by
    cases p
    simp only at hpe ht
    rw [ht, hpe]
  rw [← this]
  exact hmem

lemma procReach_of_field {σ0 : Store} {tm : List (String × PTable)}
    {tid : String} {pt : PTable} (h : (tid, pt) ∈ tm) {f : Nat}
    (hf : f ∈ pt.fields) : procReach σ0 tm f :=
  ⟨(tid, pt), h, f, hf, Reaches.refl⟩

lemma procReach_child {σ0 : Store} {tm : List (String × PTable)} {a b : Nat}
    (ha : procReach σ0 tm a)
    (hcs : ∃ cs, (σ0.mem a).children = some cs ∧ b ∈ cs) :
    procReach σ0 tm b := by
  obtain ⟨p, hp, f, hf, hr⟩ := ha
  exact ⟨p, hp, f, hf, Reaches.child hr hcs⟩

lemma fieldMappingOf_values (σ : Store) (cs : List Nat) :
    ∀ p ∈ fieldMappingOf σ cs, p.2 ∈ cs := by
  unfold fieldMappingOf
  suffices hgen : ∀ (cs2 : List Nat) (fm0 : List (Option String × Nat)),
      (∀ p ∈ fm0, p.2 ∈ cs) → (∀ a ∈ cs2, a ∈ cs) →
      ∀ p ∈ cs2.foldl (fun fm a =>
        if (σ.mem a).type = some "field" then dictInsert fm ((σ.mem a).id) a
        else fm) fm0, p.2 ∈ cs by
    exact hgen cs [] (by intro p hp; cases hp) (fun a ha => ha)
  intro cs2
  induction cs2 with
  | nil => intro fm0 h0 _ p hp; exact h0 p hp
  | cons a rest ih =>
    intro fm0 h0 hsub p hp
    rw [List.foldl_cons] at hp
    apply ih _ ?_ (fun b hb => hsub b (List.mem_cons_of_mem _ hb)) p hp
    intro q hq
    split_ifs at hq with hty
    · exact dictInsert_forall (fun r => r.2 ∈ cs) fm0 _ _ h0
        (hsub a (List.mem_cons_self _ _)) q hq
    · exact h0 q hq

lemma fmLookup_mem {fm : List (Option String × Nat)} {fid : Option String}
    {a : Nat} (h : fmLookup fm fid = some a) : ∃ k, (k, a) ∈ fm := by
  unfold fmLookup at h
  obtain ⟨p, hp, hpe⟩ := Option.map_eq_some'.mp h
  refine ⟨p.1, ?_⟩
  have hpa : (p.1, a) = p := by
    cases p
    simp only at hpe ⊢
    rw [hpe]
  rw [hpa]
  exact List.mem_of_find?_eq_some hp

lemma buildNewChildren_spec (σ0 : Store) (tm : List (String × PTable))
    (fm : List (Option String × Nat)) :
    ∀ (pfs : List Nat) (σ : Store) (acc : List Nat),
      StoreInv σ0 tm σ →
      (∀ p ∈ fm, Allowed σ0 tm σ p.2) →
      (∀ f ∈ pfs, procReach σ0 tm f) →
      (∀ b ∈ acc, Allowed σ0 tm σ b) →
      StoreInv σ0 tm (buildNewChildren fm pfs σ acc).1 ∧
      σ.next ≤ (buildNewChildren fm pfs σ acc).1.next ∧
      (∀ x, x < σ.next → (buildNewChildren fm pfs σ acc).1.mem x = σ.mem x) ∧
      (∀ b ∈ (buildNewChildren fm pfs σ acc).2,
        Allowed σ0 tm (buildNewChildren fm pfs σ acc).1 b) := by
  intro pfs
  induction pfs with
  | nil =>
    intro σ acc hinv hfm _ hacc
    exact ⟨hinv, le_refl _, fun x _ => rfl, hacc⟩
  | cons pf rest ih =>
    intro σ acc hinv hfm hpfs hacc
    have hpfP : procReach σ0 tm pf := hpfs pf (List.mem_cons_self _ _)
    unfold buildNewChildren
    cases hlk : fmLookup fm ((σ.mem pf).id) with
    | none =>
      exact ih σ (acc ++ [pf]) hinv hfm
        (fun f hf => hpfs f (List.mem_cons_of_mem _ hf))
        (by
          intro b hb
          rcases List.mem_append.mp hb with hb1 | hb2
          · exact hacc b hb1
          · rcases List.mem_singleton.mp hb2 with rfl
            exact Or.inr hpfP)
    | some orig =>
      dsimp only
      have horigA : Allowed σ0 tm σ orig := by
        obtain ⟨k, hk⟩ := fmLookup_mem hlk
        exact hfm (k, orig) hk
      have hWn : σ0.next ≤ σ.next := hinv.1
      -- the freshly allocated merged node keeps the invariant
      have hinv2 : StoreInv σ0 tm (allocNode σ (mergeNode (σ.mem orig) (σ.mem pf))).1 := by
        refine ⟨?_, ?_, ?_⟩
        · rw [allocNode_next]; omega
        · intro x hx1 hx2
          rw [allocNode_mem_ne σ _ x (by omega)]
          exact hinv.2.1 x hx1 hx2
        · intro x hxA cs hcs b hb
          by_cases hxe : x = σ.next
          · rw [hxe, allocNode_mem_self] at hcs
            have hmerged : ∃ src, Allowed σ0 tm σ src ∧ (σ.mem src).children = some cs := by
              unfold mergeNode at hcs
              simp only at hcs
              cases hpc : (σ.mem pf).children with
              | some c2 =>
                rw [hpc] at hcs
                exact ⟨pf, Or.inr hpfP, by rw [hpc]; exact hcs⟩
              | none =>
                rw [hpc] at hcs
                exact ⟨orig, horigA, hcs⟩
            obtain ⟨src, hsrcA, hsrc⟩ := hmerged
            have := hinv.2.2 src hsrcA cs hsrc b hb
            exact Allowed_mono σ0 tm (by rw [allocNode_next]; omega) this
          · rw [allocNode_mem_ne σ _ x hxe] at hcs
            have hxA2 : Allowed σ0 tm σ x := by
              rcases hxA with ⟨hx1, hx2⟩ | hp
              · rw [allocNode_next] at hx2
                exact Or.inl ⟨hx1, by omega⟩
              · exact Or.inr hp
            have := hinv.2.2 x hxA2 cs hcs b hb
            exact Allowed_mono σ0 tm (by rw [allocNode_next]; omega) this
      have haddrA : Allowed σ0 tm (allocNode σ (mergeNode (σ.mem orig) (σ.mem pf))).1
          (allocNode σ (mergeNode (σ.mem orig) (σ.mem pf))).2 := by
        rw [allocNode_addr]
        exact Or.inl ⟨hWn, by rw [allocNode_next]; omega⟩
      obtain ⟨g1, g2, g3, g4⟩ := ih (allocNode σ (mergeNode (σ.mem orig) (σ.mem pf))).1
        (acc ++ [(allocNode σ (mergeNode (σ.mem orig) (σ.mem pf))).2]) hinv2
        (fun p hp => Allowed_mono σ0 tm (by rw [allocNode_next]; omega) (hfm p hp))
        (fun f hf => hpfs f (List.mem_cons_of_mem _ hf))
        (by
          intro b hb
          rcases List.mem_append.mp hb with hb1 | hb2
          · exact Allowed_mono σ0 tm (by rw [allocNode_next]; omega) (hacc b hb1)
          · rcases List.mem_singleton.mp hb2 with rfl
            exact haddrA)
      refine ⟨g1, ?_, ?_, g4⟩
      · rw [allocNode_next] at g2
        omega
      · intro x hx
        rw [g3 x (by rw [allocNode_next]; omega)]
        exact allocNode_mem_ne σ _ x (by omega)

lemma StoreInv_write (σ0 : Store) (tm : List (String × PTable)) {σ σw : Store}
    (c : Nat) (hc : Allowed σ0 tm σ c) (hinv : StoreInv σ0 tm σ)
    (hnext : σw.next = σ.next)
    (hmem_ne : ∀ x, x ≠ c → σw.mem x = σ.mem x)
    (hchildren : ∀ cs, (σw.mem c).children = some cs →
      ∀ b ∈ cs, Allowed σ0 tm σ b) :
    StoreInv σ0 tm σw := by
  refine ⟨?_, ?_, ?_⟩
  · rw [hnext]; exact hinv.1
  · intro x hx1 hx2
    have hxc : x ≠ c := by
      intro he
      rcases hc with ⟨hf1, _⟩ | hp
      · rw [he] at hx1; omega
      · rw [he] at hx2; exact hx2 hp
    rw [hmem_ne x hxc]
    exact hinv.2.1 x hx1 hx2
  · intro x hxA cs hcs b hb
    have hxA2 : Allowed σ0 tm σ x :=
      Allowed_mono σ0 tm (le_of_eq hnext) hxA
    by_cases hxc : x = c
    · rw [hxc] at hcs
      exact Allowed_mono σ0 tm (le_of_eq hnext.symm) (hchildren cs hcs b hb)
    · rw [hmem_ne x hxc] at hcs
      exact Allowed_mono σ0 tm (le_of_eq hnext.symm)
        (hinv.2.2 x hxA2 cs hcs b hb)

lemma tableRewrite_spec (σ0 : Store) (tm : List (String × PTable))
    (σ : Store) (c : Nat) (hinv : StoreInv σ0 tm σ)
    (hc : Allowed σ0 tm σ c) :
    StoreInv σ0 tm (tableRewrite tm σ c) ∧
    σ.next ≤ (tableRewrite tm σ c).next := by
  unfold tableRewrite
  split_ifs with hty
  · cases hid : (σ.mem c).id with
    | none => exact ⟨hinv, le_refl _⟩
    | some tid =>
      dsimp only
      cases hlk : tmLookup tm tid with
      | none => exact ⟨hinv, le_refl _⟩
      | some pt =>
        dsimp only
        have hold : ∀ a ∈ ((σ.mem c).children).getD [], Allowed σ0 tm σ a := by
          cases hch : (σ.mem c).children with
          | none => intro a ha; simp at ha
          | some ks =>
            intro a ha
            exact hinv.2.2 c hc ks hch a (by simpa using ha)
        have hfmA : ∀ p ∈ fieldMappingOf σ (((σ.mem c).children).getD []),
            Allowed σ0 tm σ p.2 :=
          fun p hp => hold p.2 (fieldMappingOf_values σ _ p hp)
        have hpfsP : ∀ f ∈ pt.fields, procReach σ0 tm f :=
          fun f hf => procReach_of_field (tmLookup_mem hlk) hf
        obtain ⟨b1, b2, b3, b4⟩ := buildNewChildren_spec σ0 tm
          (fieldMappingOf σ (((σ.mem c).children).getD [])) pt.fields σ []
          hinv hfmA hpfsP (by intro b hb; cases hb)
        have hcA2 : Allowed σ0 tm
            (buildNewChildren (fieldMappingOf σ (((σ.mem c).children).getD []))
              pt.fields σ []).1 c :=
          Allowed_mono σ0 tm b2 hc
        have hkidsA : ∀ b ∈ (buildNewChildren
              (fieldMappingOf σ (((σ.mem c).children).getD [])) pt.fields σ []).2 ++
            (((σ.mem c).children).getD []).filter
              (fun a => !((σ.mem a).type = some "field")),
            Allowed σ0 tm (buildNewChildren
              (fieldMappingOf σ (((σ.mem c).children).getD [])) pt.fields σ []).1 b := by
          intro b hb
          rcases List.mem_append.mp hb with hb1 | hb2
          · exact b4 b hb1
          · exact Allowed_mono σ0 tm b2 (hold b (List.mem_of_mem_filter hb2))
        have hinv4 : StoreInv σ0 tm (writeChildren
            (buildNewChildren (fieldMappingOf σ (((σ.mem c).children).getD []))
              pt.fields σ []).1 c
            ((buildNewChildren (fieldMappingOf σ (((σ.mem c).children).getD []))
              pt.fields σ []).2 ++
              (((σ.mem c).children).getD []).filter
                (fun a => !((σ.mem a).type = some "field")))) := by
          apply StoreInv_write σ0 tm c hcA2 b1 (writeChildren_next _ _ _)
            (fun x hx => writeChildren_mem_ne _ _ _ x hx)
          intro cs hcs b hb
          rw [writeChildren_mem_self] at hcs
          simp only [Option.some_inj] at hcs
          rw [← hcs] at hb
          exact hkidsA b hb
        cases hmd : pt.metadata with
        | none =>
          refine ⟨hinv4, ?_⟩
          rw [writeChildren_next]
          exact b2
        | some m =>
          dsimp only
          refine ⟨?_, ?_⟩
          · apply StoreInv_write σ0 tm c
              (Allowed_mono σ0 tm (le_of_eq (writeChildren_next _ _ _).symm) hcA2)
              hinv4 (writeMetadata_next _ _ _)
              (fun x hx => writeMetadata_mem_ne _ _ _ x hx)
            intro cs hcs b hb
            rw [writeMetadata_mem_self] at hcs
            simp only at hcs
            exact hinv4.2.2 c
              (Allowed_mono σ0 tm (le_of_eq (writeChildren_next _ _ _).symm) hcA2)
              cs hcs b hb
          · rw [writeMetadata_next, writeChildren_next]
            exact b2
  · exact ⟨hinv, le_refl _⟩

lemma updateTablesInChildren_spec (σ0 : Store) (tm : List (String × PTable)) :
    ∀ (fuel : Nat) (cs : List Nat) (σ : Store),
      StoreInv σ0 tm σ → (∀ c ∈ cs, Allowed σ0 tm σ c) →
      StoreInv σ0 tm (updateTablesInChildren tm fuel σ cs) ∧
      σ.next ≤ (updateTablesInChildren tm fuel σ cs).next := by
  intro fuel
  induction fuel with
  | zero => intro cs σ hinv _; exact ⟨hinv, le_refl _⟩
  | succ fuel ih =>
    have hstep : ∀ (σ : Store) (c : Nat), StoreInv σ0 tm σ → Allowed σ0 tm σ c →
        StoreInv σ0 tm (match ((tableRewrite tm σ c).mem c).children with
          | some cs2 => updateTablesInChildren tm fuel (tableRewrite tm σ c) cs2
          | none => tableRewrite tm σ c) ∧
        σ.next ≤ (match ((tableRewrite tm σ c).mem c).children with
          | some cs2 => updateTablesInChildren tm fuel (tableRewrite tm σ c) cs2
          | none => tableRewrite tm σ c).next := by
      intro σ c hinv hc
      obtain ⟨r1, r2⟩ := tableRewrite_spec σ0 tm σ c hinv hc
      cases hch : ((tableRewrite tm σ c).mem c).children with
      | none => exact ⟨r1, r2⟩
      | some cs2 =>
        have hcA : Allowed σ0 tm (tableRewrite tm σ c) c := Allowed_mono σ0 tm r2 hc
        have hcs2A := r1.2.2 c hcA cs2 hch
        obtain ⟨u1, u2⟩ := ih cs2 (tableRewrite tm σ c) r1 hcs2A
        exact ⟨u1, le_trans r2 u2⟩
    suffices hfold : ∀ (cs : List Nat) (σ : Store), StoreInv σ0 tm σ →
        (∀ c ∈ cs, Allowed σ0 tm σ c) →
        StoreInv σ0 tm (cs.foldl (fun σ c =>
          match ((tableRewrite tm σ c).mem c).children with
          | some cs2 => updateTablesInChildren tm fuel (tableRewrite tm σ c) cs2
          | none => tableRewrite tm σ c) σ) ∧
        σ.next ≤ (cs.foldl (fun σ c =>
          match ((tableRewrite tm σ c).mem c).children with
          | some cs2 => updateTablesInChildren tm fuel (tableRewrite tm σ c) cs2
          | none => tableRewrite tm σ c) σ).next by
      intro cs σ hinv hcall
      exact hfold cs σ hinv hcall
    intro cs
    induction cs with
    | nil => intro σ hinv _; exact ⟨hinv, le_refl _⟩
    | cons c rest ihc =>
      intro σ hinv hall
      rw [List.foldl_cons]
      obtain ⟨s1, s2⟩ := hstep σ c hinv (hall c (List.mem_cons_self _ _))
      obtain ⟨t1, t2⟩ := ihc _ s1
        (fun d hd => Allowed_mono σ0 tm s2 (hall d (List.mem_cons_of_mem _ hd)))
      exact ⟨t1, le_trans s2 t2⟩

/-- C10 (amended): merge_table_results_with_ocr leaves every object
reachable from base_predictions unchanged, provided the object graph of
the processed tables shares no object with it (as is the case for
structures freshly parsed from JSON): every write of the merge lands
either on the deep copy, on a fresh merged field dict, or on an object of
the processed tables themselves.  Without that disjointness the guarantee
fails, see the counterexample. -/
theorem c10_merge_no_mutation (σ0 : Store) (base : Nat)
    (tm : List (String × PTable)) (fuel : Nat)
    (H1 : ∀ a, Reaches σ0 base a → a < σ0.next)
    (H2 : ∀ a, Reaches σ0 base a → ¬ procReach σ0 tm a)
    (H3 : ∀ b, procReach σ0 tm b → b < σ0.next) :
    ∀ a, Reaches σ0 base a →
      ((merge_table_results_with_ocr fuel σ0 base tm).1).mem a = σ0.mem a := by
  intro a ha
  obtain ⟨d1, ⟨d2a, d2b⟩, d3, d4⟩ := deepcopy_spec fuel σ0 base
  have hinv1 : StoreInv σ0 tm (deepcopy fuel σ0 base).1 := by
    refine ⟨d1, fun x hx _ => d3 x hx, ?_⟩
    intro x hxA cs hcs b hb
    rcases hxA with ⟨hx1, hx2⟩ | hp
    · exact Or.inl (d4 x hx1 hx2 cs hcs b hb)
    · have hxW := H3 x hp
      rw [d3 x hxW] at hcs
      exact Or.inr (procReach_child hp ⟨cs, hcs, hb⟩)
  unfold merge_table_results_with_ocr
  cases hch : (((deepcopy fuel σ0 base).1).mem (deepcopy fuel σ0 base).2).children with
  | none =>
    dsimp only
    exact d3 a (H1 a ha)
  | some cs =>
    dsimp only
    have hrootA : Allowed σ0 tm (deepcopy fuel σ0 base).1 (deepcopy fuel σ0 base).2 :=
      Or.inl ⟨d2a, d2b⟩
    have hcsA := hinv1.2.2 _ hrootA cs hch
    obtain ⟨u1, u2⟩ := updateTablesInChildren_spec σ0 tm fuel cs
      (deepcopy fuel σ0 base).1 hinv1 hcsA
    exact u1.2.1 a (H1 a ha) (H2 a ha)

theorem c10_merge_no_mutation_witness :
    Reaches c10SafeStore 0 1 ∧
    ((merge_table_results_with_ocr 5 c10SafeStore 0 c10SafeTM).1).mem 1 =
      c10SafeStore.mem 1 := by
  have h0c : (c10SafeStore.mem 0).children = some [1] := by with_unfolding_all rfl
  have h1c : (c10SafeStore.mem 1).children = some [2] := by with_unfolding_all rfl
  have h2c : (c10SafeStore.mem 2).children = none := by with_unfolding_all rfl
  have h3c : (c10SafeStore.mem 3).children = none := by with_unfolding_all rfl
  have hreach : ∀ a, Reaches c10SafeStore 0 a → a = 0 ∨ a = 1 ∨ a = 2 := by
    intro a ha
    induction ha with
    | refl => exact Or.inl rfl
    | @child x b hx hcs ih =>
      obtain ⟨cs, hcs1, hb⟩ := hcs
      rcases ih with rfl | rfl | rfl
      · rw [h0c] at hcs1
        rw [← Option.some.inj hcs1] at hb
        rcases List.mem_singleton.mp hb with rfl
        exact Or.inr (Or.inl rfl)
      · rw [h1c] at hcs1
        rw [← Option.some.inj hcs1] at hb
        rcases List.mem_singleton.mp hb with rfl
        exact Or.inr (Or.inr rfl)
      · rw [h2c] at hcs1
        exact absurd hcs1 (by simp)
  have hproc : ∀ b, procReach c10SafeStore c10SafeTM b → b = 3 := by
    rintro b ⟨p, hp, f, hf, hr⟩
    have hp2 : p = ("t1", (⟨[3], none⟩ : PTable)) := by
      simpa [c10SafeTM] using hp
    rw [hp2] at hf
    simp only at hf
    have hf3 : f = 3 := by simpa using hf
    rw [hf3] at hr
    induction hr with
    | refl => rfl
    | @child x b hx hcs ih =>
      rw [ih] at hcs
      obtain ⟨cs, hcs1, hb⟩ := hcs
      rw [h3c] at hcs1
      exact absurd hcs1 (by simp)
  have hR1 : Reaches c10SafeStore 0 1 :=
    Reaches.child Reaches.refl ⟨[1], h0c, List.mem_singleton.mpr rfl⟩
  refine ⟨hR1, ?_⟩
  apply c10_merge_no_mutation c10SafeStore 0 c10SafeTM 5
  · intro a ha
    rcases hreach a ha with rfl | rfl | rfl <;> with_unfolding_all decide
  · intro a ha hp
    have h3 := hproc a hp
    rcases hreach a ha with rfl | rfl | rfl <;> simp at h3
  · intro b hb
    rw [hproc b hb]
    with_unfolding_all decide
  · exact hR1

/-- C10 (counterexample): when the processed tables alias an object of
base_predictions - here the base table t2 at address 2 is passed off as a
processed field of t1 - the recursive update descends into the inserted
original object and overwrites its children, mutating base_predictions:
after the call the node at address 2, reachable from the base root, has
lost its field child. -/
theorem c10_counterexample :
    Reaches c10Store 0 2 ∧
    (c10Store.mem 2).children = some [3] ∧
    ((merge_table_results_with_ocr 10 c10Store 0 c10TM).1).mem 2 ≠
      c10Store.mem 2 := by
  refine ⟨Reaches.child Reaches.refl
    ⟨[1, 2], by with_unfolding_all rfl, by simp⟩,
    by with_unfolding_all rfl, ?_⟩
  intro h
  have h2 : (((merge_table_results_with_ocr 10 c10Store 0 c10TM).1).mem 2).children =
      some [] := by with_unfolding_all rfl
  rw [h] at h2
  have h3 : (c10Store.mem 2).children = some [3] := by with_unfolding_all rfl
  rw [h3] at h2
  simp at h2

end MergeTheorems

end CredDocs
